import Mathlib

/-!
Verification of the import-reconciliation engine of auto_fix_imports.py.

The Python source works line by line over the raw text with regular
expressions.  The definitions below are a shallow embedding of that code:
strings are Lean strings, lines are obtained by splitting on the newline
character, and every regular expression of the source is implemented as an
explicit character-level matcher with the same semantics (anchored matches,
greedy and non-greedy repetition over character classes, optional trailing
semicolons).  Python set values are represented as duplicate-free lists and
Python dicts as association lists in insertion order; every place the code
observes a dict or set (sorted output, membership) is order-insensitive, so
this representation is faithful.
-/

/-- The Python whitespace class, shared by str.strip and the regex
backslash-s in Unicode mode: both consult the same CPython whitespace
table, namely tab through carriage return (9 to 13), the file, group,
record and unit separators (28 to 31), space, next line (133), no-break
space (160), ogham space mark (5760), the en-quad through hair-space range
(8192 to 8202), line and paragraph separators (8232, 8233), narrow no-break
space (8239), medium mathematical space (8287) and ideographic space
(12288). -/
def pySpace (c : Char) : Bool :=
  (9 ≤ c.toNat && c.toNat ≤ 13) || (28 ≤ c.toNat && c.toNat ≤ 31) ||
  c.toNat = 32 || c.toNat = 133 || c.toNat = 160 || c.toNat = 5760 ||
  (8192 ≤ c.toNat && c.toNat ≤ 8202) || c.toNat = 8232 || c.toNat = 8233 ||
  c.toNat = 8239 || c.toNat = 8287 || c.toNat = 12288

/-- Strip leading and trailing whitespace from a character list,
like Python str.strip(). -/
def pyStripL (cs : List Char) : List Char :=
  ((cs.dropWhile pySpace).reverse.dropWhile pySpace).reverse

/-- Python str.strip() on a string. -/
def pyStrip (s : String) : String :=
  String.mk (pyStripL s.data)

/-- Split a character list on the newline character; empty pieces are kept
and the empty list yields one empty piece, like Python str.split. -/
def splitLinesAux : List Char → List Char → List String
  | [], acc => [String.mk acc.reverse]
  | c :: cs, acc =>
    if c = '\n' then String.mk acc.reverse :: splitLinesAux cs []
    else splitLinesAux cs (c :: acc)

/-- content.split newline, as in update_imports and parse_existing_imports. -/
def splitLines (s : String) : List String :=
  splitLinesAux s.data []

/-- Join lines with newline, the inverse of splitLines; models
the final newline join of update_imports. -/
def joinLines : List String → String
  | [] => ""
  | [l] => l
  | l :: rest => l ++ "\n" ++ joinLines rest

/-- Lexicographic comparison of character lists by code point, matching how
Python sorted() compares strings. -/
def lexLe : List Char → List Char → Bool
  | [], _ => true
  | _ :: _, [] => false
  | a :: as, b :: bs =>
    if a.toNat < b.toNat then true
    else if b.toNat < a.toNat then false
    else lexLe as bs

/-- String comparison used to model Python sorted() on strings. -/
def strLe (a b : String) : Bool :=
  lexLe a.data b.data

/-- The relation form of strLe, for sortedness statements. -/
def strLeR (a b : String) : Prop :=
  strLe a b = true

instance : DecidableRel strLeR := fun a b =>
  inferInstanceAs (Decidable (strLe a b = true))

/-- Python sorted() on a list of strings. -/
def sortStrings (l : List String) : List String :=
  List.insertionSort strLeR l

/-- Boolean list-of-chars starts-with test. -/
def hasPre : List Char → List Char → Bool
  | [], _ => true
  | _ :: _, [] => false
  | c :: cs, d :: ds => c = d && hasPre cs ds

/-- Consume an exact literal from the front of the input, or fail. -/
def eatLit : List Char → List Char → Option (List Char)
  | [], s => some s
  | _ :: _, [] => none
  | c :: cs, d :: ds => if d = c then eatLit cs ds else none

/-- Consume maximal whitespace, corresponding to a greedy backslash-s star
followed by a non-whitespace continuation. -/
def eatWs (s : List Char) : List Char :=
  s.dropWhile pySpace

/-- Consume maximal whitespace requiring at least one character,
corresponding to backslash-s plus. -/
def eatWs1 (s : List Char) : Option (List Char) :=
  match s with
  | c :: cs => if pySpace c then some (cs.dropWhile pySpace) else none
  | [] => none

/-- Consume one expected character. -/
def eatChar (c : Char) (s : List Char) : Option (List Char) :=
  match s with
  | d :: ds => if d = c then some ds else none
  | [] => none

/-- Split at the first occurrence of a character: returns the part before it
and the part after it, or fails when the character is absent. -/
def splitAtCh (c : Char) : List Char → Option (List Char × List Char)
  | [] => none
  | d :: ds =>
    if d = c then some ([], ds)
    else (splitAtCh c ds).map (fun p => (d :: p.1, p.2))

/-- The apostrophe character. -/
def quoteA : Char := Char.ofNat 39

/-- The double-quote character. -/
def quoteB : Char := Char.ofNat 34

/-- Is the character a single or double quote, the class used by
the import regexes. -/
def isQuoteCh (c : Char) : Bool :=
  c = quoteA || c = quoteB

/-- A quoted module name: a quote, one or more non-quote characters, a
quote.  Returns the name and the rest of the input.  As in the source
regexes the two quotes are drawn independently from the same class. -/
def tailQuoted (s : List Char) : Option (String × List Char) :=
  match s with
  | c :: cs =>
    if isQuoteCh c then
      let run := cs.takeWhile (fun d => !isQuoteCh d)
      let rest := cs.dropWhile (fun d => !isQuoteCh d)
      if run.isEmpty then none
      else
        match rest with
        | d :: ds => if isQuoteCh d then some (String.mk run, ds) else none
        | [] => none
    else none
  | [] => none

/-- The shared tail of several import regexes: optional whitespace, a quoted
module name, an optional semicolon, end of line. -/
def matchEndTail (s : List Char) : Option String :=
  match tailQuoted (eatWs s) with
  | some (src, rest) => if rest = [] || rest = [';'] then some src else none
  | none => none

/-- Split a character list at every occurrence of a character, keeping empty
pieces, like Python str.split with a separator argument. -/
def splitAllCh (c : Char) : List Char → List (List Char)
  | [] => [[]]
  | d :: ds =>
    let r := splitAllCh c ds
    if d = c then [] :: r
    else
      match r with
      | h :: t => (d :: h) :: t
      | [] => [[d]]

/-- The comma-separated symbol list inside a single-line named import:
split on commas, strip each piece, drop empties. -/
def parse_comps (inner : List Char) : List String :=
  (splitAllCh ',' inner).foldl
    (fun acc piece =>
      let p := pyStripL piece
      if p.isEmpty then acc else acc ++ [String.mk p]) []

/-- The single-line named-import regex of parse_existing_imports applied to
a stripped line: import, optional spaces, open brace, a non-empty brace-free
symbol list, close brace, from, a quoted module, optional semicolon, end.
Returns the module and the extracted symbol names. -/
def matchSingleNamed (s : List Char) : Option (String × List String) :=
  match eatLit "import".data s with
  | none => none
  | some s1 =>
    match eatChar '\x7b' (eatWs s1) with
    | none => none
    | some s3 =>
      match splitAtCh '\x7d' s3 with
      | none => none
      | some (inner, s4) =>
        if inner.isEmpty then none
        else
          match eatLit "from".data (eatWs s4) with
          | none => none
          | some s6 =>
            match matchEndTail s6 with
            | some src => some (src, parse_comps inner)
            | none => none

/-- The multi-line block opener regex applied to a stripped line: import,
optional spaces, an open brace, optional trailing spaces, end of line. -/
def matchMultiStart (s : List Char) : Bool :=
  match eatLit "import".data s with
  | some s1 =>
    match eatChar '\x7b' (eatWs s1) with
    | some s2 => (eatWs s2).isEmpty
    | none => false
  | none => false

/-- Search for the rightmost viable split of the text after the closing
brace into junk, the literal from, and a quoted module tail.  The junk may
not contain a close brace, mirroring the greedy optional non-brace group of
the closing-line regex. -/
def multiEndSearch : List Char → Option String
  | [] => none
  | c :: cs =>
    let deeper := if c = '\x7d' then none else multiEndSearch cs
    match deeper with
    | some src => some src
    | none =>
      match eatLit "from".data (c :: cs) with
      | some rest => matchEndTail rest
      | none => none

/-- The multi-line block closing regex applied to a stripped line: optional
spaces, a close brace, optional brace-free junk, from, a quoted module,
optional semicolon, end of line.  Returns the module. -/
def matchMultiEnd (s : List Char) : Option String :=
  match eatChar '\x7d' (eatWs s) with
  | some r => multiEndSearch r
  | none => none

/-- First alternative of the general-import regex after the word import: at
least one space, then a quoted module, optional semicolon, end (covers
side-effect imports). -/
def genAlt1 (r : List Char) : Bool :=
  match r with
  | c :: cs => pySpace c && (matchEndTail cs).isSome
  | [] => false

/-- Scan for the second alternative of the general-import regex: one or
more whitespace characters, a non-empty non-greedy semicolon-free chunk,
one or more whitespace characters, the literal from, a quoted module.  cnt
is the index of the current position in the text after the word import and
prevWs records whether the previous character was whitespace.  A viable
from at index cnt needs a whitespace character at index zero, a whitespace
character just before it, a non-empty chunk in between, hence an index of
at least three, and no semicolon anywhere before it; the chunk itself may
contain whitespace, so these conditions are exactly the existence of a
split of the prefix into the three required non-empty parts. -/
def genAlt2Aux : Bool → Nat → List Char → Bool
  | _, _, [] => false
  | prevWs, cnt, c :: cs =>
    (prevWs && decide (3 ≤ cnt) &&
      (match eatLit "from".data (c :: cs) with
       | some rest => (matchEndTail rest).isSome
       | none => false))
    || (c ≠ ';' && genAlt2Aux (pySpace c) (cnt + 1) cs)

/-- Second alternative of the general-import regex after the word import
(covers default and namespace imports reaching a from clause). -/
def genAlt2 (r : List Char) : Bool :=
  match r with
  | c :: cs => pySpace c && genAlt2Aux true 1 cs
  | [] => false

/-- Third alternative of the general-import regex after the word import: a
star, as, a name, from, a quoted module (namespace imports). -/
def genAlt3 (r : List Char) : Bool :=
  match eatWs1 r with
  | none => false
  | some r1 =>
    match eatChar '*' r1 with
    | none => false
    | some r2 =>
      match eatWs1 r2 with
      | none => false
      | some r3 =>
        match eatLit "as".data r3 with
        | none => false
        | some r4 =>
          match eatWs1 r4 with
          | none => false
          | some r5 =>
            let tok := r5.takeWhile (fun c => !pySpace c)
            let r6 := r5.dropWhile (fun c => !pySpace c)
            !tok.isEmpty &&
              (match eatWs1 r6 with
               | none => false
               | some r7 =>
                 match eatLit "from".data r7 with
                 | none => false
                 | some r8 => (matchEndTail r8).isSome)

/-- The catch-all import regex of parse_existing_imports case three,
applied to a stripped line: optional spaces, import, then a side-effect
module, a default or namespace import with a from clause, or a starred
namespace import; optional semicolon, end of line. -/
def matchGeneralImport (s : List Char) : Bool :=
  match eatLit "import".data (eatWs s) with
  | some r => genAlt1 r || genAlt2 r || genAlt3 r
  | none => false

/-- Interior-line exclusion shape one: a prefix that looks like a complete
single-line named import, up to and including its opening quote. -/
def exNamed (s : List Char) : Bool :=
  match eatLit "import".data s with
  | none => false
  | some s1 =>
    match eatChar '\x7b' (eatWs s1) with
    | none => false
    | some s2 =>
      match splitAtCh '\x7d' s2 with
      | none => false
      | some (inner, s3) =>
        !inner.isEmpty &&
          (match eatLit "from".data (eatWs s3) with
           | none => false
           | some s4 =>
             match eatWs s4 with
             | c :: _ => isQuoteCh c
             | [] => false)

/-- Interior-line exclusion shape two: import, spaces, one non-space token,
spaces, from, optional spaces, an opening quote.  Note a starred
namespace import does not fit this shape because its token is the bare star followed
by as. -/
def exDefault (s : List Char) : Bool :=
  match eatLit "import".data s with
  | none => false
  | some s1 =>
    match eatWs1 s1 with
    | none => false
    | some s2 =>
      let tok := s2.takeWhile (fun c => !pySpace c)
      let s3 := s2.dropWhile (fun c => !pySpace c)
      !tok.isEmpty &&
        (match eatWs1 s3 with
         | none => false
         | some s4 =>
           match eatLit "from".data s4 with
           | none => false
           | some s5 =>
             match eatWs s5 with
             | c :: _ => isQuoteCh c
             | [] => false)

/-- Interior-line exclusion shape three: import, optional spaces, a quote,
and a later quote anywhere on the line (side-effect import shape). -/
def exSideEffect (s : List Char) : Bool :=
  match eatLit "import".data s with
  | none => false
  | some s1 =>
    match eatWs s1 with
    | c :: cs => isQuoteCh c && cs.any isQuoteCh
    | [] => false

/-- The filter applied to every interior line of a multi-line block before
its tokens are recorded as symbols. -/
def isExcluded (s : List Char) : Bool :=
  exNamed s || exDefault s || exSideEffect s

/-- Delimiters of the interior-line token split: commas and whitespace. -/
def isDelimCh (c : Char) : Bool :=
  c = ',' || pySpace c

/-- Split into maximal delimiter-free runs, dropping empties, like the
comma-and-whitespace regex split followed by the non-empty filter. -/
def splitTokensAux : List Char → List Char → List String
  | [], acc => if acc.isEmpty then [] else [String.mk acc.reverse]
  | c :: cs, acc =>
    if isDelimCh c then
      if acc.isEmpty then splitTokensAux cs []
      else String.mk acc.reverse :: splitTokensAux cs []
    else splitTokensAux cs (c :: acc)

/-- Tokens of one interior line. -/
def splitTokens (cs : List Char) : List String :=
  splitTokensAux cs []

/-- Symbols collected from the interior lines of a multi-line named-import
block: lines matching a complete-import shape are excluded, the rest are
split into tokens. -/
def blockComponents : List String → List String
  | [] => []
  | l :: rest =>
    (if isExcluded (pyStripL l.data) then []
     else splitTokens (pyStripL l.data)) ++ blockComponents rest

/-- A Python dict from module source to a set of symbol names, modelled as
an association list in insertion order with duplicate-free value lists. -/
abbrev SMap := List (String × List String)

/-- Lookup in an association list by key. -/
def lookupS : SMap → String → Option (List String)
  | [], _ => none
  | (k, v) :: rest, key => if k = key then some v else lookupS rest key

/-- Lookup with the empty set as default. -/
def getD (m : SMap) (k : String) : List String :=
  match lookupS m k with
  | some v => v
  | none => []

/-- Add symbols to a set, keeping the first occurrence of each, like
Python set.update. -/
def dedupAppend (cur : List String) (vs : List String) : List String :=
  vs.foldl (fun acc s => if s ∈ acc then acc else acc ++ [s]) cur

/-- dict.setdefault followed by set.update: extend the entry for a key,
creating it (possibly empty) when absent. -/
def addAll (m : SMap) (k : String) (vs : List String) : SMap :=
  match m with
  | [] => [(k, dedupAppend [] vs)]
  | (k', v') :: rest =>
    if k' = k then (k', dedupAppend v' vs) :: rest
    else (k', v') :: addAll rest k vs

/-- The merge step of update_imports: start from an empty dict, fold in the
existing-import map, then fold in the usage-derived map. -/
def mergeMaps (a b : SMap) : SMap :=
  b.foldl (fun m p => addAll m p.1 p.2)
    (a.foldl (fun m p => addAll m p.1 p.2) [])

/-- The inner block scan of parse_existing_imports: find the first line
matching the closing shape.  Returns its offset, the module, the interior
lines before it, and the remaining lines after it. -/
def findCloseAux : List String → Option (Nat × String × List String × List String)
  | [] => none
  | l :: rest =>
    match matchMultiEnd (pyStripL l.data) with
    | some src => some (0, src, [], rest)
    | none =>
      match findCloseAux rest with
      | some (k, src, int, rem) => some (k + 1, src, l :: int, rem)
      | none => none

/-- The line loop of parse_existing_imports.  ls is the suffix of the line
list starting at absolute index i; the fuel dominates the number of steps,
each of which consumes at least one line. -/
def parseGo : Nat → List String → Nat → SMap → List (Nat × Nat) → SMap × List (Nat × Nat)
  | 0, _, _, m, rs => (m, rs)
  | fuel + 1, ls, i, m, rs =>
    match ls with
    | [] => (m, rs)
    | l :: rest =>
      let s := pyStripL l.data
      match matchSingleNamed s with
      | some (src, comps) =>
        parseGo fuel rest (i + 1) (addAll m src comps) (rs ++ [(i, i)])
      | none =>
        if matchMultiStart s then
          match findCloseAux rest with
          | some (k, src, interior, rem) =>
            parseGo fuel rem (i + k + 2)
              (addAll m src (blockComponents interior)) (rs ++ [(i, i + k + 1)])
          | none => parseGo fuel rest (i + 1) m rs
        else if matchGeneralImport s then
          parseGo fuel rest (i + 1) m (rs ++ [(i, i)])
        else parseGo fuel rest (i + 1) m rs

/-- parse_existing_imports of the source: the existing-import map and the
inclusive line ranges of every recognized import statement. -/
def parse_existing_imports (content : String) : SMap × List (Nat × Nat) :=
  let lines := splitLines content
  parseGo lines.length lines 0 [] []

/-- The client-directive regex: a one-line use client string in either
quote style with an optional semicolon, applied to a stripped line. -/
def isUseClientLine (s : List Char) : Bool :=
  let str := String.mk s
  str = "\x22use client\x22" || str = "\x27use client\x27" ||
    str = "\x22use client\x22;" || str = "\x27use client\x27;"

/-- Does a stripped line start a comment. -/
def isCommentStart (s : List Char) : Bool :=
  match s with
  | '/' :: '/' :: _ => true
  | '/' :: '*' :: _ => true
  | _ => false

/-- The directive scan of update_imports: walk forward over blank and
comment lines looking for the client directive; every visited line index is
recorded as special.  Any other line stops the scan. -/
def scanDirectiveAux : List String → Nat → Option String × List Nat
  | [], _ => (none, [])
  | l :: rest, i =>
    let s := pyStripL l.data
    if isUseClientLine s then (some l, [i])
    else if s.isEmpty || isCommentStart s then
      let (d, idxs) := scanDirectiveAux rest (i + 1)
      (d, i :: idxs)
    else (none, [])

/-- The special-top-line extraction of update_imports: an optional shebang
on the very first unstripped line, then the directive scan. -/
def scanSpecials (lines : List String) : Option String × Option String × List Nat :=
  match lines with
  | [] => (none, none, [])
  | l :: rest =>
    if hasPre "#!".data l.data then
      let (d, idxs) := scanDirectiveAux rest 1
      (some l, d, 0 :: idxs)
    else
      let (d, idxs) := scanDirectiveAux lines 0
      (none, d, idxs)

/-- Is a line blank after stripping. -/
def isBlankS (l : String) : Bool :=
  (pyStripL l.data).isEmpty

/-- Last element of a line list, empty when the list is empty; only used on
non-empty lists, mirroring the negative index of the source. -/
def lastD (l : List String) : String :=
  match l.getLast? with
  | some x => x
  | none => ""

/-- Remove trailing blank lines, the final cleanup of update_imports. -/
def dropTrailingBlanks (ls : List String) : List String :=
  (ls.reverse.dropWhile isBlankS).reverse

/-- The React hook and component names of the source table. -/
def REACT_COMPONENTS : List String :=
  ["Fragment", "Component", "PureComponent", "memo", "forwardRef",
   "createContext", "useContext", "useState", "useEffect", "useReducer",
   "useCallback", "useMemo", "useRef", "useImperativeHandle", "useLayoutEffect",
   "useDebugValue", "createRef", "isValidElement", "Children", "cloneElement",
   "createElement", "createFactory", "lazy", "Suspense", "StrictMode"]

/-- The shadcn/ui component table of the source: component name to
kebab-case module file name. -/
def SHADCN_COMPONENTS : List (String × String) :=
  [("Accordion", "accordion"), ("AccordionContent", "accordion"),
   ("AccordionItem", "accordion"), ("AccordionTrigger", "accordion"),
   ("Alert", "alert"), ("AlertDescription", "alert"), ("AlertTitle", "alert"),
   ("AlertDialog", "alert-dialog"), ("AlertDialogAction", "alert-dialog"),
   ("AlertDialogCancel", "alert-dialog"), ("AlertDialogContent", "alert-dialog"),
   ("AlertDialogDescription", "alert-dialog"), ("AlertDialogFooter", "alert-dialog"),
   ("AlertDialogHeader", "alert-dialog"), ("AlertDialogTitle", "alert-dialog"),
   ("AlertDialogTrigger", "alert-dialog"), ("AspectRatio", "aspect-ratio"),
   ("Avatar", "avatar"), ("AvatarFallback", "avatar"), ("AvatarImage", "avatar"),
   ("Badge", "badge"), ("Button", "button"), ("Calendar", "calendar"),
   ("Card", "card"), ("CardContent", "card"), ("CardDescription", "card"),
   ("CardFooter", "card"), ("CardHeader", "card"), ("CardTitle", "card"),
   ("Carousel", "carousel"), ("CarouselContent", "carousel"),
   ("CarouselItem", "carousel"), ("CarouselNext", "carousel"),
   ("CarouselPrevious", "carousel"), ("Checkbox", "checkbox"),
   ("Collapsible", "collapsible"), ("CollapsibleContent", "collapsible"),
   ("CollapsibleTrigger", "collapsible"), ("Command", "command"),
   ("CommandDialog", "command"), ("CommandEmpty", "command"),
   ("CommandGroup", "command"), ("CommandInput", "command"),
   ("CommandItem", "command"), ("CommandList", "command"),
   ("CommandSeparator", "command"), ("CommandShortcut", "command"),
   ("ContextMenu", "context-menu"), ("ContextMenuCheckboxItem", "context-menu"),
   ("ContextMenuContent", "context-menu"), ("ContextMenuItem", "context-menu"),
   ("ContextMenuLabel", "context-menu"), ("ContextMenuRadioGroup", "context-menu"),
   ("ContextMenuRadioItem", "context-menu"), ("ContextMenuSeparator", "context-menu"),
   ("ContextMenuShortcut", "context-menu"), ("ContextMenuSub", "context-menu"),
   ("ContextMenuSubContent", "context-menu"), ("ContextMenuSubTrigger", "context-menu"),
   ("ContextMenuTrigger", "context-menu"), ("Dialog", "dialog"),
   ("DialogContent", "dialog"), ("DialogDescription", "dialog"),
   ("DialogFooter", "dialog"), ("DialogHeader", "dialog"),
   ("DialogTitle", "dialog"), ("DialogTrigger", "dialog"),
   ("Drawer", "drawer"), ("DrawerClose", "drawer"), ("DrawerContent", "drawer"),
   ("DrawerDescription", "drawer"), ("DrawerFooter", "drawer"),
   ("DrawerHeader", "drawer"), ("DrawerTitle", "drawer"),
   ("DrawerTrigger", "drawer"), ("DropdownMenu", "dropdown-menu"),
   ("DropdownMenuCheckboxItem", "dropdown-menu"), ("DropdownMenuContent", "dropdown-menu"),
   ("DropdownMenuGroup", "dropdown-menu"), ("DropdownMenuItem", "dropdown-menu"),
   ("DropdownMenuLabel", "dropdown-menu"), ("DropdownMenuPortal", "dropdown-menu"),
   ("DropdownMenuRadioGroup", "dropdown-menu"), ("DropdownMenuRadioItem", "dropdown-menu"),
   ("DropdownMenuSeparator", "dropdown-menu"), ("DropdownMenuShortcut", "dropdown-menu"),
   ("DropdownMenuSub", "dropdown-menu"), ("DropdownMenuSubContent", "dropdown-menu"),
   ("DropdownMenuSubTrigger", "dropdown-menu"), ("DropdownMenuTrigger", "dropdown-menu"),
   ("Form", "form"), ("FormControl", "form"), ("FormDescription", "form"),
   ("FormField", "form"), ("FormItem", "form"), ("FormLabel", "form"),
   ("FormMessage", "form"), ("HoverCard", "hover-card"),
   ("HoverCardContent", "hover-card"), ("HoverCardTrigger", "hover-card"),
   ("Input", "input"), ("Label", "label"), ("Menubar", "menubar"),
   ("MenubarCheckboxItem", "menubar"), ("MenubarContent", "menubar"),
   ("MenubarItem", "menubar"), ("MenubarLabel", "menubar"),
   ("MenubarMenu", "menubar"), ("MenubarRadioGroup", "menubar"),
   ("MenubarRadioItem", "menubar"), ("MenubarSeparator", "menubar"),
   ("MenubarShortcut", "menubar"), ("MenubarSub", "menubar"),
   ("MenubarSubContent", "menubar"), ("MenubarSubTrigger", "menubar"),
   ("MenubarTrigger", "menubar"), ("NavigationMenu", "navigation-menu"),
   ("NavigationMenuContent", "navigation-menu"), ("NavigationMenuIndicator", "navigation-menu"),
   ("NavigationMenuItem", "navigation-menu"), ("NavigationMenuLink", "navigation-menu"),
   ("NavigationMenuList", "navigation-menu"), ("NavigationMenuTrigger", "navigation-menu"),
   ("NavigationMenuViewport", "navigation-menu"), ("Pagination", "pagination"),
   ("PaginationContent", "pagination"), ("PaginationEllipsis", "pagination"),
   ("PaginationItem", "pagination"), ("PaginationLink", "pagination"),
   ("PaginationNext", "pagination"), ("PaginationPrevious", "pagination"),
   ("Popover", "popover"), ("PopoverContent", "popover"),
   ("PopoverTrigger", "popover"), ("Progress", "progress"),
   ("RadioGroup", "radio-group"), ("RadioGroupItem", "radio-group"),
   ("ScrollArea", "scroll-area"), ("ScrollBar", "scroll-area"),
   ("Select", "select"), ("SelectContent", "select"), ("SelectGroup", "select"),
   ("SelectItem", "select"), ("SelectLabel", "select"),
   ("SelectSeparator", "select"), ("SelectTrigger", "select"),
   ("SelectValue", "select"), ("Separator", "separator"),
   ("Sheet", "sheet"), ("SheetClose", "sheet"), ("SheetContent", "sheet"),
   ("SheetDescription", "sheet"), ("SheetFooter", "sheet"),
   ("SheetHeader", "sheet"), ("SheetTitle", "sheet"), ("SheetTrigger", "sheet"),
   ("Skeleton", "skeleton"), ("Slider", "slider"), ("Switch", "switch"),
   ("Table", "table"), ("TableBody", "table"), ("TableCaption", "table"),
   ("TableCell", "table"), ("TableFooter", "table"), ("TableHead", "table"),
   ("TableHeader", "table"), ("TableRow", "table"), ("Tabs", "tabs"),
   ("TabsContent", "tabs"), ("TabsList", "tabs"), ("TabsTrigger", "tabs"),
   ("Textarea", "textarea"), ("Toast", "toast"), ("ToastAction", "toast"),
   ("ToastClose", "toast"), ("ToastDescription", "toast"),
   ("ToastProvider", "toast"), ("ToastTitle", "toast"),
   ("ToastViewport", "toast"), ("Toggle", "toggle"),
   ("ToggleGroup", "toggle-group"), ("ToggleGroupItem", "toggle-group"),
   ("Tooltip", "tooltip"), ("TooltipContent", "tooltip"),
   ("TooltipProvider", "tooltip"), ("TooltipTrigger", "tooltip")]

/-- The Next.js export table of the source, in its insertion order. -/
def NEXTJS_IMPORTS : List (String × List String) :=
  [("next/router", ["useRouter", "withRouter", "Router"]),
   ("next/head", ["Head"]),
   ("next/image", ["Image"]),
   ("next/link", ["Link"]),
   ("next/script", ["Script"]),
   ("next/navigation", ["usePathname", "useRouter", "useSearchParams", "redirect"]),
   ("next/server", ["NextRequest", "NextResponse"])]

/-- The built-in fallback icon list of load_lucide_icons, used when the
external lucide_icons.json resource is absent. -/
def fallback_lucide_icons : List String :=
  ["Sun", "Moon", "Star", "Heart", "User", "Search", "Menu", "X",
   "Camera", "Bell", "Check", "AlertCircle"]

/-- The process-wide icon list.  load_lucide_icons reads lucide_icons.json
next to the script at startup; the repository ships no such file, so the
program as given loads the fallback list.  The resolver below is
parameterized by the loaded list so that deployments that do provide the
JSON resource are covered as well. -/
def LUCIDE_ICONS : List String :=
  fallback_lucide_icons

/-- Lookup in a string-to-string table. -/
def lookupPair : List (String × String) → String → Option String
  | [], _ => none
  | (k, v) :: rest, key => if k = key then some v else lookupPair rest key

/-- First table entry whose export list contains the name, like iterating
the Next.js dict in insertion order. -/
def findNext : List (String × List String) → String → Option String
  | [], _ => none
  | (src, exps) :: rest, n =>
    if n ∈ exps then some src else findNext rest n

/-- detect_import_source of the source, with the loaded icon list explicit:
the hard-coded cn utility first, then the shadcn table, then the icon list,
then the React table, then the Next.js table. -/
def detect_import_source (icons : List String) (component_name : String) : Option String :=
  if component_name = "cn" then some "@/lib/utils"
  else
    match lookupPair SHADCN_COMPONENTS component_name with
    | some kebab => some ("@/components/ui/" ++ kebab)
    | none =>
      if component_name ∈ icons then some "lucide-react"
      else if component_name ∈ REACT_COMPONENTS then some "react"
      else findNext NEXTJS_IMPORTS component_name

/-- Word characters for the regex word-boundary checks: ASCII letters,
ASCII digits and the underscore.  The source regexes use the Unicode-aware
backslash-w here, which on characters beyond ASCII additionally counts
Unicode letters, digits and marks as word constituents; this embedding
models the ASCII fragment, on which the two classes agree, so the boundary
checks of the usage scanner coincide with the source whenever the
characters adjacent to a candidate identifier are ASCII. -/
def isWordCh (c : Char) : Bool :=
  c.isAlpha || c.isDigit || c = '_'

/-- The identifier-continuation class of the usage regexes: ASCII letters
and digits, without underscore. -/
def isAlnumCh (c : Char) : Bool :=
  c.isAlpha || c.isDigit

/-- ASCII upper-case letter, the class starting a component name. -/
def isUpperCh (c : Char) : Bool :=
  decide (65 ≤ c.toNat) && decide (c.toNat ≤ 90)

/-- Does the cn utility-call pattern match at this position: the letters cn,
optional whitespace, an open parenthesis. -/
def cnAt (s : List Char) : Bool :=
  match s with
  | 'c' :: 'n' :: rest =>
    (match rest.dropWhile pySpace with
     | '(' :: _ => true
     | _ => false)
  | _ => false

/-- Search the text for a word-boundary occurrence of the cn call pattern;
prevW records whether the previous character was a word character. -/
def cnUsedAux : Bool → List Char → Bool
  | _, [] => false
  | prevW, c :: cs => (!prevW && cnAt (c :: cs)) || cnUsedAux (isWordCh c) cs

/-- The first usage pass: is cn called anywhere. -/
def cnUsed (cs : List Char) : Bool :=
  cnUsedAux false cs

/-- The JSX pass: every capitalized identifier immediately following an
opening angle bracket. -/
def jsxAux : List Char → List String
  | [] => []
  | '<' :: c :: cs =>
    if isUpperCh c then
      String.mk (c :: cs.takeWhile isAlnumCh) :: jsxAux (c :: cs)
    else jsxAux (c :: cs)
  | _ :: cs => jsxAux cs

/-- Does the hook pattern match at this position: the letters use, an
upper-case letter, an alphanumeric run, then a word boundary. -/
def hookAt (s : List Char) : Option String :=
  match s with
  | 'u' :: 's' :: 'e' :: c :: cs =>
    if isUpperCh c then
      let run := cs.takeWhile isAlnumCh
      let rest := cs.dropWhile isAlnumCh
      match rest with
      | [] => some (String.mk ('u' :: 's' :: 'e' :: c :: run))
      | d :: _ =>
        if isWordCh d then none
        else some (String.mk ('u' :: 's' :: 'e' :: c :: run))
    else none
  | _ => none

/-- The hook pass: every word-boundary occurrence of the hook pattern. -/
def hookAux : Bool → List Char → List String
  | _, [] => []
  | prevW, c :: cs =>
    (if !prevW then
       (match hookAt (c :: cs) with
        | some id => [id]
        | none => [])
     else []) ++ hookAux (isWordCh c) cs

/-- Does the capitalized-reference pattern match at this position: an
upper-case letter, an alphanumeric run, then a dot or open parenthesis. -/
def capAt (s : List Char) : Option String :=
  match s with
  | c :: cs =>
    if isUpperCh c then
      let run := cs.takeWhile isAlnumCh
      match cs.dropWhile isAlnumCh with
      | '.' :: _ => some (String.mk (c :: run))
      | '(' :: _ => some (String.mk (c :: run))
      | _ => none
    else none
  | [] => none

/-- The capitalized-reference pass over the whole text. -/
def capAux : Bool → List Char → List String
  | _, [] => []
  | prevW, c :: cs =>
    (if !prevW then
       (match capAt (c :: cs) with
        | some id => [id]
        | none => [])
     else []) ++ capAux (isWordCh c) cs

/-- find_used_components of the source: the union of the four usage passes,
returned as a duplicate-free list standing for the Python set. -/
def find_used_components (content : String) : List String :=
  let cs := content.data
  dedupAppend []
    ((if cnUsed cs then ["cn"] else []) ++
      jsxAux cs ++ hookAux false cs ++ capAux false cs)

/-- group_components_by_source of the source, with the loaded icon list
explicit: resolve each component, group by module, sort each group. -/
def group_components_by_source (icons : List String) (components : List String) : SMap :=
  let grouped := components.foldl
    (fun m c =>
      match detect_import_source icons c with
      | some src => addAll m src [c]
      | none => m) []
  grouped.map (fun p => (p.1, sortStrings p.2))

/-- Comma-and-space join of a symbol list, as in the one-line import
format string. -/
def joinComma : List String → String
  | [] => ""
  | [c] => c
  | c :: rest => c ++ ", " ++ joinComma rest

/-- The one-line named-import format of update_imports. -/
def mkSingleLine (src : String) (comps : List String) : String :=
  "import \x7b " ++ joinComma comps ++ " \x7d from \x27" ++ src ++ "\x27;"

/-- The interior lines of a multi-line named-import block: one symbol per
line with a trailing comma except on the last. -/
def multiBody : List String → List String
  | [] => []
  | [c] => ["  " ++ c]
  | c :: rest => ("  " ++ c ++ ",") :: multiBody rest

/-- The lines emitted for one module of the merged map: nothing when its
symbol set is empty, one line for at most three sorted symbols, and a
multi-line block otherwise. -/
def genFor (m : SMap) (src : String) : List String :=
  let comps := sortStrings (getD m src)
  if comps.isEmpty then []
  else if comps.length ≤ 3 then [mkSingleLine src comps]
  else ("import \x7b" :: multiBody comps) ++
    ["\x7d from \x27" ++ src ++ "\x27;"]

/-- The import-generation loop of update_imports: modules in sorted order,
each contributing its genFor lines. -/
def generated_import_lines (m : SMap) : List String :=
  (sortStrings (m.map (fun p => p.1))).foldl
    (fun acc src => acc ++ genFor m src) []

/-- Is the index inside one of the recorded import ranges. -/
def inAnyRange (ranges : List (Nat × Nat)) (i : Nat) : Bool :=
  ranges.any (fun r => Nat.ble r.1 i && Nat.ble i r.2)

/-- The head of the reconstruction: the preserved shebang and directive
lines r0, then, when there are generated imports, the blank-line separators
of the source around the generated block. -/
def importSection (r0 gen nonImp : List String) : List String :=
  if gen.isEmpty then r0
  else
    let ra := if !r0.isEmpty && !isBlankS (lastD r0) then r0 ++ [""] else r0
    let rb := ra ++ gen
    if !nonImp.isEmpty && !isBlankS (lastD rb) then rb ++ [""] else rb

/-- The generated import block of one update_imports run: the merge of the
parsed existing-import map with the usage-derived map, formatted. -/
def genLines (content : String) (new_imports : SMap) : List String :=
  generated_import_lines (mergeMaps (parse_existing_imports content).1 new_imports)

/-- The lines of the input that survive removal: everything outside the
recorded import ranges and the special top-line indices. -/
def keptLines (content : String) : List String :=
  ((splitLines content).enum.filter
    (fun p => !inAnyRange (parse_existing_imports content).2 p.1 &&
      !((scanSpecials (splitLines content)).2.2.contains p.1))).map
    (fun p => p.2)

/-- The re-emitted special lines: the shebang, then the client directive. -/
def specialHead (content : String) : List String :=
  (match (scanSpecials (splitLines content)).1 with
   | some s => [s]
   | none => []) ++
  (match (scanSpecials (splitLines content)).2.1 with
   | some d => [d]
   | none => [])

/-- The character prefix with which a rewritten file begins, given the
shebang and directive the special scan found: the shebang line, a newline,
then the directive line, omitting whichever is absent. -/
def headPre : Option String → Option String → List Char
  | some s, some d => s.data ++ '\n' :: d.data
  | some s, none => s.data
  | none, some d => d.data
  | none, none => []

/-- The reconstruction of update_imports as a line list: parse and remove the
recognized import ranges and special top lines, merge the existing-import map with the
usage-derived map, emit the new import block after the shebang and client
directive with the blank-line separators of the source, append the
remaining lines and drop trailing blanks. -/
def reconLines (content : String) (new_imports : SMap) : List String :=
  dropTrailingBlanks
    (importSection (specialHead content) (genLines content new_imports)
      (keptLines content) ++ keptLines content)

/-- update_imports of the source: the reconstructed lines joined with
newlines. -/
def update_imports (content : String) (new_imports : SMap) : String :=
  joinLines (reconLines content new_imports)

/-- One full run of the engine on a file text, as process_file performs it:
scan usages, group them by resolved module, and rewrite the import block. -/
def rewrite (x : String) : String :=
  update_imports x (group_components_by_source LUCIDE_ICONS (find_used_components x))


/-- Substring test over character lists. -/
def containsL : List Char → List Char → Bool
  | pat, [] => pat.isEmpty
  | pat, c :: cs => hasPre pat (c :: cs) || containsL pat cs

/-- A file whose only content is a named import of Card, never used. -/
def c1Input : String :=
  "import \x7b Card \x7d from \x27@/components/ui/card\x27;"

/-- A file with one side-effect import followed by code. -/
def c2Input : String :=
  "import \x27./globals.css\x27;\nbody();"

/-- A file with an unterminated multi-line import opener whose interior
line is itself a complete named import. -/
def c4Input : String :=
  "import \x7b\nimport \x7b Button \x7d from \x27x\x27;"

/-- A file with an unterminated multi-line import opener after a code line,
with harmless text after the opener. -/
def c4wInput : String :=
  "code();\nimport \x7b\nfoo bar"

/-- A multi-line block whose interior line is a namespace import. -/
def c7Input : String :=
  "import \x7b\nimport * as M from \x27x\x27;\n\x7d from \x27y\x27;"

/-- The nested-malformed-import scenario of the specification: a
named import pasted inside a multi-line block whose closing line is present. -/
def c7SpecInput : String :=
  "import \x7b\n  import \x7b Button \x7d from \x27x\x27;\n\x7d from \x27y\x27;\n"

/-- A comment line before the client directive. -/
def c8Input : String :=
  "// hi\n\x27use client\x27;\nfoo();"

/-- A file with a shebang, a client directive and a code line. -/
def c8wInput : String :=
  "#!/usr/bin/env node\n\x27use client\x27;\ncode();"

theorem hasPre_append (a b : List Char) : hasPre a (a ++ b) = true := by
  induction a with
  | nil => rfl
  | cons c cs ih => simp [hasPre, ih]

theorem hasPre_append_left (a p q : List Char) :
    hasPre (a ++ p) (a ++ q) = hasPre p q := by
  induction a with
  | nil => rfl
  | cons c cs ih => simp [hasPre, ih]

theorem mk_data (s : String) : String.mk s.data = s := by
  cases s
  rfl

theorem mk_append (a b : List Char) :
    String.mk a ++ String.mk b = String.mk (a ++ b) := rfl

theorem splitLinesAux_ne_nil (cs acc : List Char) : splitLinesAux cs acc ≠ [] := by
  induction cs generalizing acc with
  | nil => simp [splitLinesAux]
  | cons c cs ih =>
    by_cases h : c = '\n'
    · simp [splitLinesAux, h]
    · simpa [splitLinesAux, h] using ih (c :: acc)

theorem joinLines_cons (x : String) (ys : List String) (h : ys ≠ []) :
    joinLines (x :: ys) = x ++ "\n" ++ joinLines ys := by
  cases ys with
  | nil => exact absurd rfl h
  | cons y t => rfl

theorem joinLines_splitLinesAux (cs acc : List Char) :
    joinLines (splitLinesAux cs acc) = String.mk (acc.reverse ++ cs) := by
  induction cs generalizing acc with
  | nil => simp [splitLinesAux, joinLines]
  | cons c cs ih =>
    by_cases h : c = '\n'
    · subst h
      rw [splitLinesAux, if_pos rfl,
        joinLines_cons _ _ (splitLinesAux_ne_nil cs []), ih []]
      show String.mk acc.reverse ++ String.mk ['\n'] ++ String.mk cs = _
      rw [mk_append, mk_append]
      simp
    · rw [splitLinesAux, if_neg h, ih (c :: acc)]
      simp

theorem joinLines_splitLines (s : String) : joinLines (splitLines s) = s := by
  rw [splitLines, joinLines_splitLinesAux]
  simp [mk_data s]

theorem mem_dropWhile_of_not {α : Type} {p : α → Bool} {a : α} {l : List α}
    (hm : a ∈ l) (hp : p a = false) : a ∈ l.dropWhile p := by
  induction l with
  | nil => cases hm
  | cons b t ih =>
    by_cases hb : p b = true
    · rw [List.dropWhile_cons, if_pos hb]
      rcases List.mem_cons.mp hm with h | h
      · subst h; rw [hp] at hb; cases hb
      · exact ih h
    · rw [List.dropWhile_cons, if_neg hb]
      exact hm

theorem mem_dropTrailingBlanks {a : String} {l : List String}
    (hm : a ∈ l) (hp : isBlankS a = false) : a ∈ dropTrailingBlanks l := by
  unfold dropTrailingBlanks
  rw [List.mem_reverse]
  exact mem_dropWhile_of_not (List.mem_reverse.mpr hm) hp

theorem dropWhile_head_false {α : Type} {p : α → Bool} {l t : List α} {a : α}
    (h : l.dropWhile p = a :: t) : p a = false := by
  induction l with
  | nil => cases h
  | cons b s ih =>
    by_cases hb : p b = true
    · rw [List.dropWhile_cons, if_pos hb] at h
      exact ih h
    · rw [List.dropWhile_cons, if_neg hb] at h
      cases h
      simpa using hb

theorem mem_of_mem_dropWhile {α : Type} {p : α → Bool} {l : List α} {a : α}
    (h : a ∈ l.dropWhile p) : a ∈ l := by
  induction l with
  | nil => cases h
  | cons b s ih =>
    by_cases hb : p b = true
    · rw [List.dropWhile_cons, if_pos hb] at h
      exact List.mem_cons_of_mem _ (ih h)
    · rw [List.dropWhile_cons, if_neg hb] at h
      exact h

theorem dropTrailingBlanks_cons {a : String} (l : List String)
    (ha : isBlankS a = false) :
    dropTrailingBlanks (a :: l) = a :: dropTrailingBlanks l := by
  unfold dropTrailingBlanks
  rw [show (a :: l).reverse = l.reverse ++ [a] by simp, List.dropWhile_append]
  by_cases h : (List.dropWhile isBlankS l.reverse).isEmpty = true
  · rw [if_pos h]
    rw [List.isEmpty_iff] at h
    rw [h]
    simp [List.dropWhile, ha]
  · rw [if_neg h]
    simp

theorem dropTrailingBlanks_of_last {l : List String}
    (h : isBlankS (lastD l) = false) : dropTrailingBlanks l = l := by
  rcases List.eq_nil_or_concat l with rfl | ⟨t, b, rfl⟩
  · rfl
  · rw [List.concat_eq_append] at *
    have hb : isBlankS b = false := by
      have : lastD (t ++ [b]) = b := by
        unfold lastD
        rw [List.getLast?_concat]
      rwa [this] at h
    unfold dropTrailingBlanks
    rw [List.reverse_append]
    simp only [List.reverse_cons, List.reverse_nil, List.nil_append, List.singleton_append]
    rw [List.dropWhile_cons, if_neg (by simp [hb])]
    simp

theorem pyStripL_head_nonspace {c : Char} {t : List Char} (hc : pySpace c = false) :
    ∃ u, pyStripL (c :: t) = c :: u := by
  unfold pyStripL
  rw [List.dropWhile_cons, if_neg (by simp [hc])]
  rw [show (c :: t).reverse = t.reverse ++ [c] by simp, List.dropWhile_append]
  by_cases h : (List.dropWhile pySpace t.reverse).isEmpty = true
  · rw [if_pos h]
    rw [List.dropWhile_cons, if_neg (by simp [hc])]
    exact ⟨[], by simp⟩
  · rw [if_neg h]
    exact ⟨(List.dropWhile pySpace t.reverse).reverse, by simp⟩

theorem lexLe_total (a b : List Char) : lexLe a b = true ∨ lexLe b a = true := by
  induction a generalizing b with
  | nil => left; rfl
  | cons x xs ih =>
    cases b with
    | nil => right; rfl
    | cons y ys =>
      simp only [lexLe]
      rcases Nat.lt_trichotomy x.toNat y.toNat with h | h | h
      · left; simp [h]
      · have h1 : ¬x.toNat < y.toNat := by omega
        have h2 : ¬y.toNat < x.toNat := by omega
        simp only [if_neg h1, if_neg h2]
        exact ih ys
      · right; simp [h]

theorem lexLe_trans (a b c : List Char) (hab : lexLe a b = true)
    (hbc : lexLe b c = true) : lexLe a c = true := by
  induction a generalizing b c with
  | nil => rfl
  | cons x xs ih =>
    cases b with
    | nil => simp [lexLe] at hab
    | cons y ys =>
      cases c with
      | nil => simp [lexLe] at hbc
      | cons z zs =>
        simp only [lexLe] at hab hbc ⊢
        by_cases hxy : x.toNat < y.toNat
        · by_cases hyz : y.toNat < z.toNat
          · simp [show x.toNat < z.toNat by omega]
          · by_cases hzy : z.toNat < y.toNat
            · rw [if_neg hyz, if_pos hzy] at hbc
              simp at hbc
            · simp [show x.toNat < z.toNat by omega]
        · by_cases hyx : y.toNat < x.toNat
          · rw [if_neg hxy, if_pos hyx] at hab
            simp at hab
          · rw [if_neg hxy, if_neg hyx] at hab
            by_cases hyz : y.toNat < z.toNat
            · simp [show x.toNat < z.toNat by omega]
            · by_cases hzy : z.toNat < y.toNat
              · rw [if_neg hyz, if_pos hzy] at hbc
                simp at hbc
              · rw [if_neg hyz, if_neg hzy] at hbc
                rw [if_neg (show ¬x.toNat < z.toNat by omega),
                  if_neg (show ¬z.toNat < x.toNat by omega)]
                exact ih ys zs hab hbc

instance : IsTotal String strLeR :=
  ⟨fun a b => lexLe_total a.data b.data⟩

instance : IsTrans String strLeR :=
  ⟨fun a b c hab hbc => lexLe_trans a.data b.data c.data hab hbc⟩

theorem mem_dedupAppend {s : String} (cur vs : List String) :
    s ∈ dedupAppend cur vs ↔ s ∈ cur ∨ s ∈ vs := by
  induction vs generalizing cur with
  | nil => simp [dedupAppend]
  | cons v vs ih =>
    unfold dedupAppend at *
    rw [List.foldl_cons]
    by_cases hv : v ∈ cur
    · rw [if_pos hv, ih]
      constructor
      · rintro (h | h)
        · exact Or.inl h
        · exact Or.inr (List.mem_cons_of_mem _ h)
      · rintro (h | h)
        · exact Or.inl h
        · rcases List.mem_cons.mp h with rfl | h
          · exact Or.inl hv
          · exact Or.inr h
    · rw [if_neg hv, ih]
      simp only [List.mem_append, List.mem_singleton, List.mem_cons]
      tauto

theorem getD_cons (a : String) (v : List String) (t : SMap) (k : String) :
    getD ((a, v) :: t) k = if a = k then v else getD t k := by
  by_cases h : a = k
  · simp [getD, lookupS, h]
  · simp [getD, lookupS, h]

theorem getD_nil (k : String) : getD [] k = [] := rfl

theorem mem_getD_addAll {s : String} (m : SMap) (k' : String) (vs : List String)
    (k : String) :
    s ∈ getD (addAll m k' vs) k ↔ s ∈ getD m k ∨ (k' = k ∧ s ∈ vs) := by
  induction m with
  | nil =>
    unfold addAll
    by_cases h : k' = k
    · subst h
      rw [getD_cons, if_pos rfl, mem_dedupAppend, getD_nil]
      simp
    · rw [getD_cons, if_neg h]
      simp [h, getD_nil]
  | cons p rest ih =>
    obtain ⟨a, w⟩ := p
    unfold addAll
    by_cases ha : a = k'
    · rw [if_pos ha]
      subst ha
      by_cases hk : a = k
      · subst hk
        rw [getD_cons, if_pos rfl, getD_cons, if_pos rfl, mem_dedupAppend]
        simp
      · rw [getD_cons, if_neg hk, getD_cons, if_neg hk]
        simp [hk]
    · rw [if_neg ha]
      by_cases hk : a = k
      · subst hk
        rw [getD_cons, if_pos rfl, getD_cons, if_pos rfl]
        have hk' : ¬(k' = a) := fun h => ha h.symm
        simp [hk']
      · rw [getD_cons, if_neg hk, getD_cons, if_neg hk]
        exact ih

theorem mem_getD_foldl {s : String} (l : SMap) (m : SMap) (k : String) :
    s ∈ getD (l.foldl (fun m p => addAll m p.1 p.2) m) k ↔
      s ∈ getD m k ∨ ∃ v, (k, v) ∈ l ∧ s ∈ v := by
  induction l generalizing m with
  | nil => simp
  | cons p l ih =>
    rw [List.foldl_cons, ih, mem_getD_addAll]
    constructor
    · rintro ((h | ⟨h1, h2⟩) | ⟨v, hv, hs⟩)
      · exact Or.inl h
      · exact Or.inr ⟨p.2, by rw [← h1]; exact List.mem_cons_self _ _, h2⟩
      · exact Or.inr ⟨v, List.mem_cons_of_mem _ hv, hs⟩
    · rintro (h | ⟨v, hv, hs⟩)
      · exact Or.inl (Or.inl h)
      · rcases List.mem_cons.mp hv with heq | hv
        · refine Or.inl (Or.inr ⟨?_, ?_⟩)
          · exact (congrArg Prod.fst heq).symm
          · rw [show v = p.2 from congrArg Prod.snd heq] at hs
            exact hs
        · exact Or.inr ⟨v, hv, hs⟩

theorem findCloseAux_spec (ls : List String) :
    ∀ k src int rem, findCloseAux ls = some (k, src, int, rem) →
    ∃ l, ls.get? k = some l ∧ matchMultiEnd (pyStripL l.data) = some src ∧
      rem = ls.drop (k + 1) := by
  induction ls with
  | nil => intro k src int rem h; cases h
  | cons l rest ih =>
    intro k src int rem h
    unfold findCloseAux at h
    cases he : matchMultiEnd (pyStripL l.data) with
    | some s =>
      simp only [he, Option.some.injEq, Prod.mk.injEq] at h
      obtain ⟨rfl, rfl, _, rfl⟩ := h
      exact ⟨l, rfl, he, rfl⟩
    | none =>
      simp only [he] at h
      cases hr : findCloseAux rest with
      | none => rw [hr] at h; cases h
      | some q =>
        obtain ⟨k', src', int', rem'⟩ := q
        simp only [hr, Option.some.injEq, Prod.mk.injEq] at h
        obtain ⟨rfl, rfl, _, rfl⟩ := h
        obtain ⟨l', hg, hm, hd⟩ := ih k' src' int' rem' hr
        refine ⟨l', by simpa using hg, hm, by simpa using hd⟩

theorem eatLit_shape {c : Char} {cs s r : List Char}
    (h : eatLit (c :: cs) s = some r) : ∃ t, s = c :: t := by
  cases s with
  | nil => cases h
  | cons d ds =>
    unfold eatLit at h
    by_cases hd : d = c
    · exact ⟨ds, by rw [hd]⟩
    · rw [if_neg hd] at h; cases h

theorem pySpace_ne_brace {c : Char} (h : pySpace c = true) : c ≠ '\x7d' := by
  intro heq
  rw [heq] at h
  exact absurd h (by decide)

theorem splitAtCh_eq_none {ch : Char} {l : List Char} (h : ∀ c ∈ l, c ≠ ch) :
    splitAtCh ch l = none := by
  induction l with
  | nil => rfl
  | cons d ds ih =>
    unfold splitAtCh
    rw [if_neg (h d (List.mem_cons_self _ _)),
      ih (fun c hc => h c (List.mem_cons_of_mem _ hc))]
    rfl

/-- Decompose a successful opener match: the input is the word import, then
spaces, then an open brace, then spaces. -/
theorem matchMultiStart_shape {s : List Char} (h : matchMultiStart s = true) :
    ∃ s1 s2, eatLit "import".data s = some s1 ∧
      eatWs s1 = '\x7b' :: s2 ∧ (∀ c ∈ s2, pySpace c = true) := by
  unfold matchMultiStart at h
  cases h1 : eatLit "import".data s with
  | none => rw [h1] at h; cases h
  | some s1 =>
    simp only [h1] at h
    cases h2 : eatChar '\x7b' (eatWs s1) with
    | none => rw [h2] at h; cases h
    | some s2 =>
      simp only [h2] at h
      refine ⟨s1, s2, rfl, ?_, ?_⟩
      · unfold eatChar at h2
        cases hw : eatWs s1 with
        | nil => rw [hw] at h2; cases h2
        | cons d ds =>
          rw [hw] at h2
          simp only at h2
          by_cases hd : d = '\x7b'
          · rw [if_pos hd] at h2
            injection h2 with h2
            rw [hd, h2]
          · rw [if_neg hd] at h2; cases h2
      · intro c hc
        exact List.dropWhile_eq_nil_iff.mp (List.isEmpty_iff.mp h) c hc

theorem matchMultiStart_not_single {s : List Char} (h : matchMultiStart s = true) :
    matchSingleNamed s = none := by
  obtain ⟨s1, s2, h1, h2, h3⟩ := matchMultiStart_shape h
  have he : eatChar '\x7b' (eatWs s1) = some s2 := by
    rw [h2]
    simp [eatChar]
  unfold matchSingleNamed
  simp only [h1, he,
    splitAtCh_eq_none (fun c hc => pySpace_ne_brace (h3 c hc))]

theorem matchMultiStart_not_end {s : List Char} (h : matchMultiStart s = true) :
    matchMultiEnd s = none := by
  obtain ⟨s1, _, h1, _, _⟩ := matchMultiStart_shape h
  obtain ⟨t, rfl⟩ := eatLit_shape h1
  rfl

theorem pySpace_ne {c c' : Char} (h : pySpace c = true) (h' : pySpace c' = false) :
    c ≠ c' := by
  intro heq
  rw [heq, h'] at h
  cases h

theorem matchEndTail_of_spaceBrace {cs : List Char}
    (h : ∀ c ∈ cs, pySpace c = true ∨ c = '\x7b') : matchEndTail cs = none := by
  unfold matchEndTail
  cases hw : eatWs cs with
  | nil => rfl
  | cons d ds =>
    have hd : pySpace d = false := dropWhile_head_false hw
    have hdm0 : d ∈ eatWs cs := by
      rw [hw]
      exact List.mem_cons_self _ _
    have hdm : d ∈ cs := mem_of_mem_dropWhile hdm0
    have : d = '\x7b' := by
      rcases h d hdm with h' | h'
      · rw [h'] at hd; cases hd
      · exact h'
    subst this
    rfl

theorem genAlt2Aux_of_spaceBrace {cs : List Char}
    (h : ∀ c ∈ cs, pySpace c = true ∨ c = '\x7b') :
    ∀ b n, genAlt2Aux b n cs = false := by
  induction cs with
  | nil => intro b n; rfl
  | cons c cs ih =>
    intro b n
    have hcf : c ≠ 'f' := by
      rcases h c (List.mem_cons_self _ _) with h' | h'
      · exact pySpace_ne h' (by decide)
      · rw [h']; decide
    have hf : eatLit "from".data (c :: cs) = none := by
      show (if c = 'f' then eatLit "rom".data cs else none) = none
      rw [if_neg hcf]
    unfold genAlt2Aux
    rw [hf, ih (fun x hx => h x (List.mem_cons_of_mem _ hx))]
    simp

theorem genAlt3_of_spaceBrace {cs : List Char}
    (h : ∀ c ∈ cs, pySpace c = true ∨ c = '\x7b') : genAlt3 cs = false := by
  unfold genAlt3
  cases hw : eatWs1 cs with
  | none => rfl
  | some r1 =>
    have hr1 : ∀ c ∈ r1, pySpace c = true ∨ c = '\x7b' := by
      intro c hc
      cases cs with
      | nil => cases hw
      | cons a t =>
        have hw' : (if pySpace a = true then some (List.dropWhile pySpace t)
            else none) = some r1 := hw
        by_cases ha : pySpace a = true
        · rw [if_pos ha] at hw'
          injection hw' with hw'
          subst hw'
          exact h c (List.mem_cons_of_mem _ (mem_of_mem_dropWhile hc))
        · rw [if_neg ha] at hw'; cases hw'
    cases hr : r1 with
    | nil => rfl
    | cons d ds =>
      subst hr
      have hd : d ≠ '*' := by
        rcases hr1 d (List.mem_cons_self _ _) with h' | h'
        · exact pySpace_ne h' (by decide)
        · rw [h']; decide
      have hec : eatChar '*' (d :: ds) = none := by
        show (if d = '*' then some ds else none) = none
        rw [if_neg hd]
      simp only [hec]

theorem matchMultiStart_not_general {s : List Char} (h : matchMultiStart s = true) :
    matchGeneralImport s = false := by
  obtain ⟨s1, s2, h1, h2, h3⟩ := matchMultiStart_shape h
  have h2' : List.dropWhile pySpace s1 = '\x7b' :: s2 := h2
  have hchars : ∀ c ∈ s1, pySpace c = true ∨ c = '\x7b' := by
    intro c hc
    rw [← List.takeWhile_append_dropWhile pySpace s1] at hc
    rcases List.mem_append.mp hc with h' | h'
    · exact Or.inl (List.mem_takeWhile_imp h')
    · rw [h2'] at h'
      rcases List.mem_cons.mp h' with rfl | h'
      · exact Or.inr rfl
      · exact Or.inl (h3 c h')
  obtain ⟨t, rfl⟩ := eatLit_shape h1
  unfold matchGeneralImport
  rw [show eatWs ('i' :: t) = 'i' :: t from rfl]
  simp only [h1]
  have g1 : genAlt1 s1 = false := by
    cases s1 with
    | nil => rfl
    | cons c cs =>
      show (pySpace c && (matchEndTail cs).isSome) = false
      rw [matchEndTail_of_spaceBrace
        (fun x hx => hchars x (List.mem_cons_of_mem _ hx))]
      simp
  have g2 : genAlt2 s1 = false := by
    cases s1 with
    | nil => rfl
    | cons c cs =>
      show (pySpace c && genAlt2Aux true 1 cs) = false
      rw [genAlt2Aux_of_spaceBrace
        (fun x hx => hchars x (List.mem_cons_of_mem _ hx)) true 1]
      simp
  have g3 : genAlt3 s1 = false := genAlt3_of_spaceBrace hchars
  simp [g1, g2, g3]

/-- Every range the parser records is either a one-line range whose line
matches the single-line named or the general import shape, or a block range
whose first line matches the opener shape and whose last line matches the
closing shape. -/
theorem parseGo_ranges (L : List String) :
    ∀ fuel i m rs r, r ∈ (parseGo fuel (L.drop i) i m rs).2 →
      r ∈ rs ∨
      (r.1 = r.2 ∧ ∃ l, L.get? r.1 = some l ∧
        (matchSingleNamed (pyStripL l.data) ≠ none ∨
          matchGeneralImport (pyStripL l.data) = true)) ∨
      (r.1 < r.2 ∧ ∃ l l', L.get? r.1 = some l ∧ L.get? r.2 = some l' ∧
        matchMultiStart (pyStripL l.data) = true ∧
        matchMultiEnd (pyStripL l'.data) ≠ none) := by
  intro fuel
  induction fuel with
  | zero => intro i m rs r h; exact Or.inl h
  | succ fuel ih =>
    intro i m rs r h
    cases hL : L.drop i with
    | nil =>
      rw [hL] at h
      exact Or.inl h
    | cons l rest =>
      have hget : L.get? i = some l := by
        have := List.get?_drop L i 0
        rw [hL] at this
        simpa using this.symm
      have hrest : rest = L.drop (i + 1) := by
        have := List.drop_drop 1 i L
        rw [hL] at this
        simpa using this
      rw [hL] at h
      cases hm : matchSingleNamed (pyStripL l.data) with
      | some p =>
        obtain ⟨src, comps⟩ := p
        simp only [parseGo, hm] at h
        rw [hrest] at h
        rcases ih (i + 1) _ _ r h with hr | hr | hr
        · rcases List.mem_append.mp hr with hr | hr
          · exact Or.inl hr
          · have : r = (i, i) := List.mem_singleton.mp hr
            subst this
            refine Or.inr (Or.inl ⟨rfl, l, hget, Or.inl ?_⟩)
            rw [hm]
            simp
        · exact Or.inr (Or.inl hr)
        · exact Or.inr (Or.inr hr)
      | none =>
        by_cases hms : matchMultiStart (pyStripL l.data) = true
        · cases hfc : findCloseAux rest with
          | some q =>
            obtain ⟨k, src', int, rem⟩ := q
            simp only [parseGo, hm, hms, hfc, if_pos] at h
            obtain ⟨l', hgc, hme, hrem⟩ := findCloseAux_spec rest k src' int rem hfc
            have hgc' : L.get? (i + k + 1) = some l' := by
              rw [hrest] at hgc
              rw [List.get?_drop] at hgc
              rw [show i + 1 + k = i + k + 1 by omega] at hgc
              exact hgc
            have hrem' : rem = L.drop (i + k + 2) := by
              rw [hrest, List.drop_drop] at hrem
              rw [show i + 1 + (k + 1) = i + k + 2 by omega] at hrem
              exact hrem
            rw [hrem'] at h
            rcases ih (i + k + 2) _ _ r h with hr | hr | hr
            · rcases List.mem_append.mp hr with hr | hr
              · exact Or.inl hr
              · have : r = (i, i + k + 1) := List.mem_singleton.mp hr
                subst this
                refine Or.inr (Or.inr ⟨by omega, l, l', hget, hgc', hms, ?_⟩)
                rw [hme]
                simp
            · exact Or.inr (Or.inl hr)
            · exact Or.inr (Or.inr hr)
          | none =>
            simp only [parseGo, hm, hms, hfc, if_pos] at h
            rw [hrest] at h
            rcases ih (i + 1) _ _ r h with hr | hr | hr
            · exact Or.inl hr
            · exact Or.inr (Or.inl hr)
            · exact Or.inr (Or.inr hr)
        · by_cases hg : matchGeneralImport (pyStripL l.data) = true
          · simp only [parseGo, hm, hms, hg, if_pos, if_neg] at h
            rw [hrest] at h
            rcases ih (i + 1) _ _ r h with hr | hr | hr
            · rcases List.mem_append.mp hr with hr | hr
              · exact Or.inl hr
              · have : r = (i, i) := List.mem_singleton.mp hr
                subst this
                exact Or.inr (Or.inl ⟨rfl, l, hget, Or.inr hg⟩)
            · exact Or.inr (Or.inl hr)
            · exact Or.inr (Or.inr hr)
          · simp only [parseGo, hm, hms, hg, if_neg] at h
            rw [hrest] at h
            rcases ih (i + 1) _ _ r h with hr | hr | hr
            · exact Or.inl hr
            · exact Or.inr (Or.inl hr)
            · exact Or.inr (Or.inr hr)

/-- Every index the directive scan marks belongs to a line that is the
client directive, blank, or a comment. -/
theorem scanDirectiveAux_mem (ls : List String) :
    ∀ start i, i ∈ (scanDirectiveAux ls start).2 →
      start ≤ i ∧ ∃ l, ls.get? (i - start) = some l ∧
        (isUseClientLine (pyStripL l.data) = true ∨
         (pyStripL l.data).isEmpty = true ∨
         isCommentStart (pyStripL l.data) = true) := by
  induction ls with
  | nil =>
    intro start i h
    simp [scanDirectiveAux] at h
  | cons l rest ih =>
    intro start i h
    unfold scanDirectiveAux at h
    by_cases hu : isUseClientLine (pyStripL l.data) = true
    · simp only [hu, if_pos] at h
      have : i = start := List.mem_singleton.mp h
      subst this
      exact ⟨Nat.le_refl _, l, by simp, Or.inl hu⟩
    · by_cases hb : ((pyStripL l.data).isEmpty || isCommentStart (pyStripL l.data)) = true
      · rcases hsd : scanDirectiveAux rest (start + 1) with ⟨d', idxs'⟩
        simp only [hu, hb, hsd, if_pos, if_neg] at h
        rcases List.mem_cons.mp h with rfl | h
        · refine ⟨Nat.le_refl _, l, by simp, ?_⟩
          rcases Bool.or_eq_true .. |>.mp hb with h' | h'
          · exact Or.inr (Or.inl h')
          · exact Or.inr (Or.inr h')
        · obtain ⟨hle, l', hget, hP⟩ := ih (start + 1) i (by rw [hsd]; exact h)
          refine ⟨by omega, l', ?_, hP⟩
          have : i - start = (i - (start + 1)) + 1 := by omega
          rw [this]
          exact hget
      · simp only [hu, hb, if_neg] at h
        simp at h

/-- Every index the special-line extraction marks belongs to a line that is
the shebang, the client directive, blank, or a comment. -/
theorem scanSpecials_mem (lines : List String) (i : Nat)
    (h : i ∈ (scanSpecials lines).2.2) :
    ∃ l, lines.get? i = some l ∧
      (hasPre "#!".data l.data = true ∨
       isUseClientLine (pyStripL l.data) = true ∨
       (pyStripL l.data).isEmpty = true ∨
       isCommentStart (pyStripL l.data) = true) := by
  cases lines with
  | nil => simp [scanSpecials] at h
  | cons l rest =>
    unfold scanSpecials at h
    by_cases hs : hasPre "#!".data l.data = true
    · rcases hsd : scanDirectiveAux rest 1 with ⟨d', idxs'⟩
      simp only [hs, hsd, if_pos] at h
      rcases List.mem_cons.mp h with rfl | h
      · exact ⟨l, by simp, Or.inl hs⟩
      · obtain ⟨hle, l', hget, hP⟩ :=
          scanDirectiveAux_mem rest 1 i (by rw [hsd]; exact h)
        refine ⟨l', ?_, ?_⟩
        · have : i = (i - 1) + 1 := by omega
          rw [this]
          exact hget
        · rcases hP with h' | h'
          · exact Or.inr (Or.inl h')
          · exact Or.inr (Or.inr h')
    · rcases hsd : scanDirectiveAux (l :: rest) 0 with ⟨d', idxs'⟩
      simp only [hs, hsd, if_neg] at h
      obtain ⟨hle, l', hget, hP⟩ :=
        scanDirectiveAux_mem (l :: rest) 0 i (by rw [hsd]; exact h)
      refine ⟨l', by simpa using hget, ?_⟩
      rcases hP with h' | h'
      · exact Or.inr (Or.inl h')
      · exact Or.inr (Or.inr h')

/-- A line whose stripped form matches the opener shape is not a shebang,
not a client directive, not blank and not a comment. -/
theorem multiStart_not_special {l : String}
    (hms : matchMultiStart (pyStripL l.data) = true) :
    hasPre "#!".data l.data = false ∧
    isUseClientLine (pyStripL l.data) = false ∧
    (pyStripL l.data).isEmpty = false ∧
    isCommentStart (pyStripL l.data) = false := by
  obtain ⟨s1, s2, h1, _, _⟩ := matchMultiStart_shape hms
  obtain ⟨t, hstrip⟩ := eatLit_shape h1
  refine ⟨?_, ?_, ?_, ?_⟩
  · cases hd : l.data with
    | nil => rfl
    | cons c cs =>
      by_cases hc : '#' = c
      · exfalso
        subst hc
        obtain ⟨u, hu⟩ := pyStripL_head_nonspace (c := '#') (t := cs) (by decide)
        rw [hd, hu] at hstrip
        injection hstrip with h' _
        exact absurd h' (by decide)
      · simp [hasPre, hc]
  · rw [hstrip]; rfl
  · rw [hstrip]; rfl
  · rw [hstrip]; rfl

theorem get?_mem_enumFrom {α : Type} (L : List α) :
    ∀ n i a, L.get? i = some a → (n + i, a) ∈ L.enumFrom n := by
  induction L with
  | nil => intro n i a h; cases h
  | cons x xs ih =>
    intro n i a h
    cases i with
    | zero =>
      injection h with h
      subst h
      simp [List.enumFrom]
    | succ i =>
      have := ih (n + 1) i a h
      rw [show n + (i + 1) = (n + 1) + i by omega]
      exact List.mem_cons_of_mem _ this

theorem get?_mem_enum {α : Type} (L : List α) (i : Nat) (a : α)
    (h : L.get? i = some a) : (i, a) ∈ L.enum := by
  have := get?_mem_enumFrom L 0 i a h
  simpa [List.enum] using this

/-- C4 amended: when a line matches the multi-line opener shape and no
later line matches the closing shape, the parser emits no line range
covering the opener (the block scan claims nothing, it merely resumes at
the next line), and the opener line itself survives into the reconstructed
output.  Interior lines are re-examined individually, so an interior line
that itself matches an import shape may still be recognized, recorded and
rewritten on its own. -/
theorem c4_amended (x : String) (ni : SMap) (i₀ : Nat) (l : String)
    (hl : (splitLines x).get? i₀ = some l)
    (hopen : matchMultiStart (pyStripL l.data) = true)
    (hno : ∀ l' ∈ (splitLines x).drop (i₀ + 1),
      matchMultiEnd (pyStripL l'.data) = none) :
    (∀ r ∈ (parse_existing_imports x).2, ¬(r.1 ≤ i₀ ∧ i₀ ≤ r.2)) ∧
    l ∈ reconLines x ni := by
  have hcover : ∀ r ∈ (parse_existing_imports x).2, ¬(r.1 ≤ i₀ ∧ i₀ ≤ r.2) := by
    rintro r hr ⟨hr1, hr2⟩
    have hr' : r ∈ (parseGo (splitLines x).length ((splitLines x).drop 0) 0 [] []).2 := by
      rw [List.drop_zero]
      exact hr
    rcases parseGo_ranges (splitLines x) (splitLines x).length 0 [] [] r hr' with
      h0 | h0 | h0
    · cases h0
    · obtain ⟨heq, l₁, hget1, hshape⟩ := h0
      have hi : r.1 = i₀ := by omega
      rw [hi] at hget1
      have hll : l₁ = l := by
        have := hget1.symm.trans hl
        injection this
      subst hll
      rcases hshape with hs | hs
      · exact hs (matchMultiStart_not_single hopen)
      · rw [matchMultiStart_not_general hopen] at hs
        cases hs
    · obtain ⟨hlt, l₁, l₂, hget1, hget2, hms1, hme2⟩ := h0
      by_cases hcase : r.2 = i₀
      · rw [hcase] at hget2
        have hll : l₂ = l := by
          have := hget2.symm.trans hl
          injection this
        subst hll
        exact hme2 (matchMultiStart_not_end hopen)
      · have hmem : l₂ ∈ (splitLines x).drop (i₀ + 1) := by
          have h' := List.get?_drop (splitLines x) (i₀ + 1) (r.2 - (i₀ + 1))
          rw [show i₀ + 1 + (r.2 - (i₀ + 1)) = r.2 by omega, hget2] at h'
          exact List.get?_mem h'
        rw [hno l₂ hmem] at hme2
        exact hme2 rfl
  refine ⟨hcover, ?_⟩
  obtain ⟨t, hstrip⟩ := eatLit_shape
    (matchMultiStart_shape hopen).choose_spec.choose_spec.1
  have hblank : isBlankS l = false := by
    unfold isBlankS
    rw [hstrip]
    rfl
  have hnospecial : ((scanSpecials (splitLines x)).2.2.contains i₀) = false := by
    cases hc : ((scanSpecials (splitLines x)).2.2.contains i₀) with
    | false => rfl
    | true =>
      exfalso
      have hin : i₀ ∈ (scanSpecials (splitLines x)).2.2 := List.elem_iff.mp hc
      obtain ⟨l₁, hget1, hP⟩ := scanSpecials_mem _ _ hin
      have hll : l₁ = l := by
        have := hget1.symm.trans hl
        injection this
      subst hll
      obtain ⟨p1, p2, p3, p4⟩ := multiStart_not_special hopen
      rcases hP with h' | h' | h' | h'
      · rw [p1] at h'; cases h'
      · rw [p2] at h'; cases h'
      · rw [p3] at h'; cases h'
      · rw [p4] at h'; cases h'
  have hnorange : inAnyRange (parse_existing_imports x).2 i₀ = false := by
    unfold inAnyRange
    rw [List.any_eq_false]
    intro r hr hcontra
    rw [Bool.and_eq_true, Nat.ble_eq, Nat.ble_eq] at hcontra
    exact hcover r hr hcontra
  have hmemNI : l ∈ keptLines x := by
    unfold keptLines
    refine List.mem_map.mpr ⟨(i₀, l), List.mem_filter.mpr ⟨get?_mem_enum _ _ _ hl, ?_⟩, rfl⟩
    simp only [Bool.and_eq_true, Bool.not_eq_true']
    exact ⟨hnorange, hnospecial⟩
  show l ∈ reconLines x ni
  unfold reconLines
  exact mem_dropTrailingBlanks (List.mem_append_right _ hmemNI) hblank

theorem importSection_shape (r0 gen nonImp : List String) :
    ∃ ext, importSection r0 gen nonImp = r0 ++ ext := by
  unfold importSection
  by_cases h1 : gen.isEmpty = true
  · rw [if_pos h1]
    exact ⟨[], (List.append_nil r0).symm⟩
  · rw [if_neg h1]
    simp only
    by_cases h2 : (!r0.isEmpty && !isBlankS (lastD r0)) = true
    · rw [if_pos h2]
      by_cases h3 : (!nonImp.isEmpty &&
          !isBlankS (lastD (r0 ++ [""] ++ gen))) = true
      · rw [if_pos h3]
        exact ⟨[""] ++ gen ++ [""], by simp⟩
      · rw [if_neg h3]
        exact ⟨[""] ++ gen, by simp⟩
    · rw [if_neg h2]
      by_cases h3 : (!nonImp.isEmpty && !isBlankS (lastD (r0 ++ gen))) = true
      · rw [if_pos h3]
        exact ⟨gen ++ [""], by simp⟩
      · rw [if_neg h3]
        exact ⟨gen, rfl⟩

theorem scanDirectiveAux_some (ls : List String) :
    ∀ start d idxs, scanDirectiveAux ls start = (some d, idxs) →
      isUseClientLine (pyStripL d.data) = true := by
  induction ls with
  | nil =>
    intro start d idxs h
    injection h with h1 _
    cases h1
  | cons l rest ih =>
    intro start d idxs h
    unfold scanDirectiveAux at h
    by_cases hu : isUseClientLine (pyStripL l.data) = true
    · simp only [hu, if_pos] at h
      injection h with h1 _
      injection h1 with h1
      rw [← h1]
      exact hu
    · by_cases hb : ((pyStripL l.data).isEmpty ||
          isCommentStart (pyStripL l.data)) = true
      · rcases hsd : scanDirectiveAux rest (start + 1) with ⟨d', idxs'⟩
        simp only [hu, hb, hsd, if_pos, if_neg] at h
        injection h with h1 _
        exact ih (start + 1) d idxs' (by rw [hsd, h1])
      · simp only [hu, hb, if_neg] at h
        injection h with h1 _
        cases h1

theorem useClient_nonblank {d : String}
    (h : isUseClientLine (pyStripL d.data) = true) : isBlankS d = false := by
  unfold isBlankS
  cases hs : pyStripL d.data with
  | nil =>
    rw [hs] at h
    exact absurd h (by decide)
  | cons c cs => rfl

theorem shebang_nonblank {s : String} (h : hasPre "#!".data s.data = true) :
    isBlankS s = false := by
  cases hd : s.data with
  | nil =>
    rw [hd] at h
    cases h
  | cons c cs =>
    rw [hd] at h
    have hc : '#' = c := by
      by_cases hc : '#' = c
      · exact hc
      · simp [hasPre, hc] at h
    unfold isBlankS
    rw [hd, ← hc]
    obtain ⟨u, hu⟩ := pyStripL_head_nonspace (c := '#') (t := cs) (by decide)
    rw [hu]
    rfl

theorem hasPre_joinLines (a : String) (T : List String) :
    hasPre a.data (joinLines (a :: T)).data = true := by
  cases T with
  | nil =>
    have := hasPre_append a.data []
    rwa [List.append_nil] at this
  | cons b T =>
    rw [joinLines_cons a (b :: T) (by simp)]
    rw [String.data_append, String.data_append, List.append_assoc]
    exact hasPre_append a.data _

/-- C3 amended: resolution order is the hard-coded utility first, then the
component library, then the loaded icon list, then the React table, then
the Next.js table last; hence any name on the loaded icon list that is not
a component-library name and not the utility resolves to lucide-react, no
matter what the routing library exports. -/
theorem c3_amended (icons : List String) (n : String)
    (h1 : n ≠ "cn") (h2 : lookupPair SHADCN_COMPONENTS n = none)
    (h3 : n ∈ icons) :
    detect_import_source icons n = some "lucide-react" := by
  unfold detect_import_source
  rw [if_neg h1]
  simp only [h2]
  rw [if_pos h3]

/-- C3 amended witness: Link with an icon list containing Link. -/
theorem c3_amended_witness :
    "Link" ≠ "cn" ∧ lookupPair SHADCN_COMPONENTS "Link" = none ∧
    "Link" ∈ ["Link"] ∧
    detect_import_source ["Link"] "Link" = some "lucide-react" :=
  ⟨by decide, by decide, by decide,
    c3_amended ["Link"] "Link" (by decide) (by decide) (by decide)⟩

/-- C7 amended: in a terminated block, interior lines matching the
complete-named, default or side-effect import shape are excluded and every
recorded symbol comes from a non-excluded interior line; on the nested
named-import scenario of the specification the inner line contributes
nothing, so the enclosing module records the empty set.  A namespace-shaped
interior line, however, fits none of the three exclusion shapes, so its
tokens do leak, as the counterexample shows. -/
theorem c7_amended :
    parse_existing_imports c7SpecInput = ([("y", [])], [(0, 2)]) ∧
    ∀ (interior : List String) (s : String), s ∈ blockComponents interior →
      ∃ l ∈ interior, isExcluded (pyStripL l.data) = false ∧
        s ∈ splitTokens (pyStripL l.data) := by
  constructor
  · decide
  · intro interior s hs
    induction interior with
    | nil => simp [blockComponents] at hs
    | cons l rest ih =>
      unfold blockComponents at hs
      rcases List.mem_append.mp hs with hhd | htl
      · by_cases he : isExcluded (pyStripL l.data) = true
        · rw [if_pos he] at hhd
          cases hhd
        · rw [if_neg he] at hhd
          exact ⟨l, List.mem_cons_self _ _,
            Bool.eq_false_iff.mpr he, hhd⟩
      · obtain ⟨l', hl', hex, hs'⟩ := ih htl
        exact ⟨l', List.mem_cons_of_mem _ hl', hex, hs'⟩

/-- C7 amended witness: the namespace interior line is not excluded and
its token M is recorded. -/
theorem c7_amended_witness :
    parse_existing_imports c7SpecInput = ([("y", [])], [(0, 2)]) ∧
    ("M" ∈ blockComponents ["import * as M from \x27x\x27;"] ∧
      ∃ l ∈ ["import * as M from \x27x\x27;"],
        isExcluded (pyStripL l.data) = false ∧
          "M" ∈ splitTokens (pyStripL l.data)) :=
  ⟨c7_amended.1,
    by decide,
    c7_amended.2 ["import * as M from \x27x\x27;"] "M" (by decide)⟩

/-- C1 counterexample: the claim says a named symbol appears in the
rewritten named-import block only when the Usage Scanner detects it in the
final code.  On this input the scanner detects nothing in the final code,
yet the final code still carries the named import of Card, because
update_imports merges the existing-import map back into the emitted set
instead of recomputing the named set purely from usage. -/
theorem c1_counterexample :
    rewrite c1Input = c1Input ∧
    find_used_components (rewrite c1Input) = [] ∧
    getD (parse_existing_imports (rewrite c1Input)).1 "@/components/ui/card" =
      ["Card"] := by
  refine ⟨?_, ?_, ?_⟩ <;> decide

/-- C2: the claim says side-effect, default and namespace import lines
reappear verbatim in the rewritten output.  The parser marks the
side-effect line as an import range without recording anything for it, and
update_imports regenerates only named imports, so the line is deleted: the
rewritten output is just the code line. -/
theorem c2_code_bug_eval :
    parse_existing_imports c2Input = ([], [(0, 0)]) ∧
    rewrite c2Input = "body();" ∧
    containsL "globals.css".data (rewrite c2Input).data = false := by
  refine ⟨?_, ?_, ?_⟩ <;> decide

/-- C3 counterexample: the claim says the routing-library table wins over
the icon-library table, so a name exported by both resolves to the routing
module.  Link is a routing-library export, and the icon resource the
loader reads does define a Link icon; with any loaded icon list containing
Link, detect_import_source answers lucide-react, because the icon check
runs before the Next.js check. -/
theorem c3_counterexample :
    findNext NEXTJS_IMPORTS "Link" = some "next/link" ∧
    detect_import_source ["Link"] "Link" = some "lucide-react" ∧
    detect_import_source ["Link"] "Link" ≠ some "next/link" := by
  refine ⟨?_, ?_, ?_⟩ <;> decide

/-- C4 counterexample: the claim says that with an unterminated opener no
symbols are recorded from the block and the whole block survives verbatim.
The parser does skip the opener, but it then re-examines the interior lines
individually: the inner named import is recognized, its symbol Button is
recorded, its line range is removed, and the two-line block no longer
occurs contiguously in the output. -/
theorem c4_counterexample :
    parse_existing_imports c4Input = ([("x", ["Button"])], [(1, 1)]) ∧
    rewrite c4Input = "import \x7b Button \x7d from \x27x\x27;\n\nimport \x7b" ∧
    containsL c4Input.data (rewrite c4Input).data = false := by
  refine ⟨?_, ?_, ?_⟩ <;> decide

/-- C4 amended witness: a concrete unterminated opener with harmless
interior, at index one of its file. -/
theorem c4_amended_witness :
    ((splitLines c4wInput).get? 1 = some "import \x7b" ∧
     matchMultiStart (pyStripL ("import \x7b" : String).data) = true ∧
     (∀ l' ∈ (splitLines c4wInput).drop 2,
       matchMultiEnd (pyStripL l'.data) = none)) ∧
    (∀ r ∈ (parse_existing_imports c4wInput).2, ¬(r.1 ≤ 1 ∧ 1 ≤ r.2)) ∧
    "import \x7b" ∈ reconLines c4wInput [] :=
  ⟨⟨by decide, by decide, by decide⟩,
   c4_amended c4wInput [] 1 "import \x7b" (by decide) (by decide) (by decide)⟩

/-- C5 counterexample: the claim says that with no detected usages and no
recognized imports the rewrite returns the input byte for byte.  A single
newline has neither usages nor imports, yet the rewrite returns the empty
string: the blank lines are consumed by the directive scan and the
trailing-blank cleanup. -/
theorem c5_counterexample :
    find_used_components "\n" = [] ∧
    parse_existing_imports "\n" = ([], []) ∧
    rewrite "\n" = "" ∧ rewrite "\n" ≠ "\n" := by
  refine ⟨?_, ?_, ?_, ?_⟩ <;> decide

/-- C6: the claim states idempotence of the rewrite.  On a one-line JSX
file the first rewrite inserts the import block and one separating blank
line; the second rewrite removes the import line but keeps that blank line
among the body lines and then inserts a fresh separator in front of it, so
every further pass grows the gap by one line and no fixed point is
reached. -/
theorem c6_code_bug_eval :
    rewrite "<Button/>" =
      "import \x7b Button \x7d from \x27@/components/ui/button\x27;\n\n<Button/>" ∧
    rewrite (rewrite "<Button/>") =
      "import \x7b Button \x7d from \x27@/components/ui/button\x27;\n\n\n<Button/>" ∧
    rewrite (rewrite "<Button/>") ≠ rewrite "<Button/>" := by
  refine ⟨?_, ?_, ?_⟩ <;> decide

/-- C7 counterexample: the claim says every interior line matching a
complete import shape, including default or namespace, is excluded from
the symbol set.  A namespace line does not fit any of the three exclusion
shapes the code checks (its first token is the bare star, so the
default-import shape fails), so its tokens are all recorded as symbols of
the enclosing module. -/
theorem c7_counterexample :
    parse_existing_imports c7Input =
      ([("y", ["import", "*", "as", "M", "from", "\x27x\x27;"])], [(0, 2)]) ∧
    "M" ∈ getD (parse_existing_imports c7Input).1 "y" := by
  refine ⟨?_, ?_⟩ <;> decide

/-- C8 counterexample: the claim says blank and comment lines captured as
part of the special region are preserved and re-emitted first.  The
directive scan does capture the comment line as special, but reconstruction
re-emits only the shebang and the directive, so the comment is dropped
from the output. -/
theorem c8_counterexample :
    scanSpecials (splitLines c8Input) =
      (none, some "\x27use client\x27;", [0, 1]) ∧
    rewrite c8Input = "\x27use client\x27;\nfoo();" ∧
    containsL "// hi".data (rewrite c8Input).data = false := by
  refine ⟨?_, ?_, ?_⟩ <;> decide

/-- C9 counterexample: the claim says modules are ordered by a bucketed
precedence key placing framework paths before the icon library.  The code
sorts module strings plainly, so lucide-react is emitted before next/link,
the opposite of the claimed precedence. -/
theorem c9_counterexample :
    rewrite "<Link/><Sun/>" =
      "import \x7b Sun \x7d from \x27lucide-react\x27;\nimport \x7b Link \x7d from \x27next/link\x27;\n\n<Link/><Sun/>" ∧
    rewrite "<Link/><Sun/>" ≠
      "import \x7b Link \x7d from \x27next/link\x27;\nimport \x7b Sun \x7d from \x27lucide-react\x27;\n\n<Link/><Sun/>" := by
  refine ⟨?_, ?_⟩ <;> decide

/-- C10: the hard-coded utility symbol cn is checked before every other
source, so whatever icon list was loaded at startup, resolution of cn
always answers the utility module and no other table can shadow it. -/
theorem c10_cn_priority :
    ∀ icons : List String, detect_import_source icons "cn" = some "@/lib/utils" :=
  fun _ => rfl

theorem hasPre_refl (a : List Char) : hasPre a a = true := by
  have := hasPre_append a []
  rwa [List.append_nil] at this

theorem mem_foldl_append {α β : Type} (g : α → List β) (l : List α) (x : β) :
    ∀ acc, x ∈ l.foldl (fun acc s => acc ++ g s) acc ↔ x ∈ acc ∨ ∃ s ∈ l, x ∈ g s := by
  induction l with
  | nil =>
    intro acc
    simp
  | cons a l ih =>
    intro acc
    rw [List.foldl_cons, ih]
    constructor
    · rintro (h | h)
      · rcases List.mem_append.mp h with h | h
        · exact Or.inl h
        · exact Or.inr ⟨a, List.mem_cons_self _ _, h⟩
      · obtain ⟨s, hs, hx⟩ := h
        exact Or.inr ⟨s, List.mem_cons_of_mem _ hs, hx⟩
    · rintro (h | ⟨s, hs, hx⟩)
      · exact Or.inl (List.mem_append_left _ h)
      · rcases List.mem_cons.mp hs with rfl | hs
        · exact Or.inl (List.mem_append_right _ hx)
        · exact Or.inr ⟨s, hs, hx⟩

/-- A line stands in the generated block exactly when some module of the
sorted key order contributes it. -/
theorem mem_generated (m : SMap) (line : String) :
    line ∈ generated_import_lines m ↔
      ∃ src ∈ sortStrings (m.map (fun p => p.1)), line ∈ genFor m src := by
  unfold generated_import_lines
  rw [mem_foldl_append]
  simp

theorem multiBody_shape (comps : List String) :
    ∀ l ∈ multiBody comps, ∃ c, l = "  " ++ c ++ "," ∨ l = "  " ++ c := by
  induction comps with
  | nil => intro l hl; cases hl
  | cons c rest ih =>
    intro l hl
    cases rest with
    | nil =>
      rcases List.mem_singleton.mp hl with rfl
      exact ⟨c, Or.inr rfl⟩
    | cons c2 rest2 =>
      rcases List.mem_cons.mp hl with rfl | hl
      · exact ⟨c, Or.inl rfl⟩
      · exact ih l hl

theorem hasPre_mkSingle (src : String) (comps : List String) :
    hasPre "import \x7b".data (mkSingleLine src comps).data = true := by
  have h1 : ("import \x7b " : String).data =
      "import \x7b".data ++ (" " : String).data := rfl
  simp only [mkSingleLine, String.data_append, h1, List.append_assoc]
  exact hasPre_append _ _

theorem hasPre_close (src : String) :
    hasPre "\x7d from".data ("\x7d from \x27" ++ src ++ "\x27;").data = true := by
  have h1 : ("\x7d from \x27" : String).data =
      "\x7d from".data ++ (" \x27" : String).data := rfl
  simp only [String.data_append, h1, List.append_assoc]
  exact hasPre_append _ _

theorem hasPre_body (c : String) :
    hasPre "  ".data ("  " ++ c).data = true ∧
    hasPre "  ".data ("  " ++ c ++ ",").data = true := by
  constructor
  · rw [String.data_append]
    exact hasPre_append _ _
  · rw [String.data_append, String.data_append, List.append_assoc]
    exact hasPre_append _ _

theorem scanDirectiveAux_ne_nil (ls : List String) :
    ∀ start d, scanDirectiveAux ls start ≠ (some d, []) := by
  induction ls with
  | nil =>
    intro start d h
    injection h with h1 _
    cases h1
  | cons l rest ih =>
    intro start d h
    unfold scanDirectiveAux at h
    by_cases hu : isUseClientLine (pyStripL l.data) = true
    · simp only [hu, if_pos] at h
      injection h with _ h2
      cases h2
    · by_cases hb : ((pyStripL l.data).isEmpty ||
          isCommentStart (pyStripL l.data)) = true
      · rcases hsd : scanDirectiveAux rest (start + 1) with ⟨d', idxs'⟩
        simp only [hu, hb, hsd, if_pos, if_neg] at h
        injection h with _ h2
        cases h2
      · simp only [hu, hb, if_neg] at h
        injection h with h1 _
        cases h1

/-- Whatever the special scan returns, a reported shebang line starts with
the shebang marker and a reported directive line is a client directive. -/
theorem scanSpecials_inv {lines : List String} {sb dir : Option String}
    {idxs : List Nat} (h : scanSpecials lines = (sb, dir, idxs)) :
    (∀ s, sb = some s → hasPre "#!".data s.data = true) ∧
    (∀ d, dir = some d → isUseClientLine (pyStripL d.data) = true) := by
  cases lines with
  | nil =>
    injection h with h1 h2
    injection h2 with h2 _
    constructor
    · intro s hs
      rw [← h1] at hs
      cases hs
    · intro d hd
      rw [← h2] at hd
      cases hd
  | cons l rest =>
    unfold scanSpecials at h
    by_cases hp : hasPre "#!".data l.data = true
    · rcases hsd : scanDirectiveAux rest 1 with ⟨d', idxs'⟩
      simp only [hp, hsd, if_pos] at h
      injection h with h1 h2
      injection h2 with h2 _
      constructor
      · intro s hs
        rw [← h1] at hs
        injection hs with hs
        rw [← hs]
        exact hp
      · intro d hd
        rw [← h2] at hd
        exact scanDirectiveAux_some rest 1 d idxs' (by rw [hsd, hd])
    · rcases hsd : scanDirectiveAux (l :: rest) 0 with ⟨d', idxs'⟩
      simp only [hp, hsd, if_neg] at h
      injection h with h1 h2
      injection h2 with h2 _
      constructor
      · intro s hs
        rw [← h1] at hs
        cases hs
      · intro d hd
        rw [← h2] at hd
        exact scanDirectiveAux_some (l :: rest) 0 d idxs' (by rw [hsd, hd])

theorem contains_eq_false_of_not_mem {i : Nat} {l : List Nat} (h : i ∉ l) :
    l.contains i = false := by
  cases hc : l.contains i with
  | false => rfl
  | true => exact absurd (List.elem_iff.mp hc) h

theorem kept_tail_aux (L : List String) (idxs : List Nat) :
    ∀ k, (∀ i ∈ idxs, i < k) →
      (List.filter (fun p => !inAnyRange [] p.1 && !(idxs.contains p.1))
        (L.enumFrom k)).map (fun p => p.2) = L := by
  intro k hk
  rw [List.filter_eq_self.mpr]
  · exact List.enumFrom_map_snd _ _
  · intro p hp
    obtain ⟨i, a⟩ := p
    have hle : k ≤ i := (List.mem_enumFrom hp).1
    have hni : i ∉ idxs := fun hmem => absurd (hk i hmem) (by omega)
    show (!inAnyRange [] i && !(idxs.contains i)) = true
    rw [contains_eq_false_of_not_mem hni]
    rfl

theorem kept_drop_one (L : List String) (a : String) :
    (((a :: L).enum.filter (fun p => !inAnyRange [] p.1 &&
      !(([0] : List Nat).contains p.1))).map (fun p => p.2)) = L := by
  exact kept_tail_aux L [0] 1 (by decide)

theorem kept_drop_two (L : List String) (a b : String) :
    (((a :: b :: L).enum.filter (fun p => !inAnyRange [] p.1 &&
      !(([0, 1] : List Nat).contains p.1))).map (fun p => p.2)) = L := by
  exact kept_tail_aux L [0, 1] 2 (by decide)

theorem scanSpecials_shape_sheb {lines : List String} {s : String}
    (h : scanSpecials lines = (some s, none, [0])) :
    ∃ rest, lines = s :: rest := by
  cases lines with
  | nil =>
    injection h with h1 _
    cases h1
  | cons l rest =>
    unfold scanSpecials at h
    by_cases hp : hasPre "#!".data l.data = true
    · rcases hsd : scanDirectiveAux rest 1 with ⟨d', idxs'⟩
      simp only [hp, hsd, if_pos] at h
      injection h with h1 _
      injection h1 with h1
      exact ⟨rest, by rw [h1]⟩
    · rcases hsd : scanDirectiveAux (l :: rest) 0 with ⟨d', idxs'⟩
      simp only [hp, hsd, if_neg] at h
      injection h with h1 _
      cases h1

theorem scanSpecials_shape_dir {lines : List String} {d : String}
    (h : scanSpecials lines = (none, some d, [0])) :
    ∃ rest, lines = d :: rest := by
  cases lines with
  | nil =>
    injection h with _ h2
    injection h2 with h2 _
    cases h2
  | cons l rest =>
    unfold scanSpecials at h
    by_cases hp : hasPre "#!".data l.data = true
    · rcases hsd : scanDirectiveAux rest 1 with ⟨d', idxs'⟩
      simp only [hp, hsd, if_pos] at h
      injection h with h1 _
      cases h1
    · rcases hsd : scanDirectiveAux (l :: rest) 0 with ⟨d', idxs'⟩
      simp only [hp, hsd, if_neg] at h
      injection h with _ h2
      injection h2 with h2 h3
      have hsd' : scanDirectiveAux (l :: rest) 0 = (some d, [0]) := by
        rw [hsd, h2, h3]
      unfold scanDirectiveAux at hsd'
      by_cases hu : isUseClientLine (pyStripL l.data) = true
      · simp only [hu, if_pos] at hsd'
        injection hsd' with h4 _
        injection h4 with h4
        exact ⟨rest, by rw [h4]⟩
      · by_cases hb : ((pyStripL l.data).isEmpty ||
            isCommentStart (pyStripL l.data)) = true
        · rcases hsd2 : scanDirectiveAux rest 1 with ⟨d2, idxs2⟩
          simp only [hu, hb, hsd2, if_pos, if_neg] at hsd'
          injection hsd' with h4 h5
          injection h5 with _ h5
          exact absurd (by rw [hsd2, h4, h5]) (scanDirectiveAux_ne_nil rest 1 d)
        · simp only [hu, hb, if_neg] at hsd'
          injection hsd' with h4 _
          cases h4

theorem scanSpecials_shape_both {lines : List String} {s d : String}
    (h : scanSpecials lines = (some s, some d, [0, 1])) :
    ∃ rest, lines = s :: d :: rest := by
  cases lines with
  | nil =>
    injection h with h1 _
    cases h1
  | cons l rest =>
    unfold scanSpecials at h
    by_cases hp : hasPre "#!".data l.data = true
    · rcases hsd : scanDirectiveAux rest 1 with ⟨d', idxs'⟩
      simp only [hp, hsd, if_pos] at h
      injection h with h1 h2
      injection h1 with h1
      injection h2 with h2 h3
      injection h3 with _ h3
      have hsd' : scanDirectiveAux rest 1 = (some d, [1]) := by
        rw [hsd, h2, h3]
      cases rest with
      | nil =>
        injection hsd' with h4 _
        cases h4
      | cons l2 rest2 =>
        unfold scanDirectiveAux at hsd'
        by_cases hu : isUseClientLine (pyStripL l2.data) = true
        · simp only [hu, if_pos] at hsd'
          injection hsd' with h4 _
          injection h4 with h4
          exact ⟨rest2, by rw [h1, h4]⟩
        · by_cases hb : ((pyStripL l2.data).isEmpty ||
              isCommentStart (pyStripL l2.data)) = true
          · rcases hsd2 : scanDirectiveAux rest2 2 with ⟨d2, idxs2⟩
            simp only [hu, hb, hsd2, if_pos, if_neg] at hsd'
            injection hsd' with h4 h5
            injection h5 with _ h5
            exact absurd (by rw [hsd2, h4, h5]) (scanDirectiveAux_ne_nil rest2 2 d)
          · simp only [hu, hb, if_neg] at hsd'
            injection hsd' with h4 _
            cases h4
    · rcases hsd : scanDirectiveAux (l :: rest) 0 with ⟨d', idxs'⟩
      simp only [hp, hsd, if_neg] at h
      injection h with h1 _
      cases h1

/-- C1 amended: imports are merged, not pruned against usage.  First
conjunct: the symbol list that the generator emits for module k (the sorted
symbol set of the merged map, exactly the comps of genFor) contains a
symbol exactly when the parser found it in an existing recognized
named import of the input or the usage-derived map supplies it — an existing
named import survives even when the usage map is empty, so there is no
dead-import elimination.  Second conjunct: every line of the emitted block
is produced by genFor of some module of that merged map, in the sorted key
order, tying the first conjunct to the block that update_imports inserts. -/
theorem c1_amended (x : String) (ni : SMap) (k s : String) :
    (s ∈ sortStrings (getD (mergeMaps (parse_existing_imports x).1 ni) k) ↔
      (∃ v, (k, v) ∈ (parse_existing_imports x).1 ∧ s ∈ v) ∨
      (∃ v, (k, v) ∈ ni ∧ s ∈ v)) ∧
    (∀ line, line ∈ genLines x ni ↔
      ∃ src ∈ sortStrings
          ((mergeMaps (parse_existing_imports x).1 ni).map (fun p => p.1)),
        line ∈ genFor (mergeMaps (parse_existing_imports x).1 ni) src) := by
  constructor
  · unfold sortStrings
    rw [(List.perm_insertionSort strLeR _).mem_iff]
    unfold mergeMaps
    rw [mem_getD_foldl, mem_getD_foldl]
    rw [show getD ([] : SMap) k = [] from rfl]
    simp only [List.not_mem_nil, false_or]
  · intro line
    exact mem_generated _ _

/-- C5 amended: with no resolvable usages and no recognized imports,
rewrite returns the input byte-for-byte unchanged provided the special scan
consumed no blank or comment lines — the input either has no special top
lines at all, or opens directly with the shebang and/or the client
directive — and the input does not end with a blank line.  Outside those
conditions identity can fail: captured blank/comment lines and trailing
blank lines are dropped, e.g. rewrite of a lone newline is the empty
string. -/
theorem c5_amended (x : String)
    (h1 : group_components_by_source LUCIDE_ICONS (find_used_components x) = [])
    (h2 : parse_existing_imports x = ([], []))
    (h3 : scanSpecials (splitLines x) = (none, none, []) ∨
      (∃ s, scanSpecials (splitLines x) = (some s, none, [0])) ∨
      (∃ d, scanSpecials (splitLines x) = (none, some d, [0])) ∨
      (∃ s d, scanSpecials (splitLines x) = (some s, some d, [0, 1])))
    (h4 : isBlankS (lastD (splitLines x)) = false) :
    rewrite x = x := by
  unfold rewrite
  rw [h1]
  unfold update_imports
  have hgen : genLines x [] = [] := by
    unfold genLines
    rw [h2]
    rfl
  have hrec : reconLines x [] = splitLines x := by
    unfold reconLines
    rw [hgen]
    rcases h3 with h3 | ⟨s, h3⟩ | ⟨d, h3⟩ | ⟨s, d, h3⟩
    · have hhead : specialHead x = [] := by
        unfold specialHead
        rw [h3]
        rfl
      have hkept : keptLines x = splitLines x := by
        unfold keptLines
        rw [h2, h3]
        exact kept_tail_aux _ [] 0 (by simp)
      rw [hhead, hkept]
      rw [show ∀ nonImp, importSection [] [] nonImp = [] from fun _ => rfl]
      rw [List.nil_append]
      exact dropTrailingBlanks_of_last h4
    · obtain ⟨rest, hlines⟩ := scanSpecials_shape_sheb h3
      have hhead : specialHead x = [s] := by
        unfold specialHead
        rw [h3]
        rfl
      have hkept : keptLines x = rest := by
        unfold keptLines
        rw [h2, h3, hlines]
        exact kept_drop_one rest s
      rw [hhead, hkept]
      rw [show ∀ nonImp, importSection [s] [] nonImp = [s] from fun _ => rfl]
      rw [show ([s] : List String) ++ rest = s :: rest from rfl]
      rw [← hlines]
      exact dropTrailingBlanks_of_last h4
    · obtain ⟨rest, hlines⟩ := scanSpecials_shape_dir h3
      have hhead : specialHead x = [d] := by
        unfold specialHead
        rw [h3]
        rfl
      have hkept : keptLines x = rest := by
        unfold keptLines
        rw [h2, h3, hlines]
        exact kept_drop_one rest d
      rw [hhead, hkept]
      rw [show ∀ nonImp, importSection [d] [] nonImp = [d] from fun _ => rfl]
      rw [show ([d] : List String) ++ rest = d :: rest from rfl]
      rw [← hlines]
      exact dropTrailingBlanks_of_last h4
    · obtain ⟨rest, hlines⟩ := scanSpecials_shape_both h3
      have hhead : specialHead x = [s, d] := by
        unfold specialHead
        rw [h3]
        rfl
      have hkept : keptLines x = rest := by
        unfold keptLines
        rw [h2, h3, hlines]
        exact kept_drop_two rest s d
      rw [hhead, hkept]
      rw [show ∀ nonImp, importSection [s, d] [] nonImp = [s, d] from
        fun _ => rfl]
      rw [show ([s, d] : List String) ++ rest = s :: d :: rest from rfl]
      rw [← hlines]
      exact dropTrailingBlanks_of_last h4
  rw [hrec, joinLines_splitLines]

/-- C8 amended: whatever special lines the scan finds — a shebang alone, a
client directive alone, or both — the rewritten output begins with exactly
those lines in that order: the shebang (if any) first, the directive (if
any) immediately after, before the import block and everything else.
Blank and comment lines captured as part of the special region, however,
are dropped rather than re-emitted, as the counterexample shows. -/
theorem c8_amended (x : String) (ni : SMap) (sb dir : Option String)
    (idxs : List Nat) (h : scanSpecials (splitLines x) = (sb, dir, idxs)) :
    hasPre (headPre sb dir) (update_imports x ni).data = true := by
  obtain ⟨hsheb, hdir⟩ := scanSpecials_inv h
  obtain ⟨ext, hext⟩ :=
    importSection_shape (specialHead x) (genLines x ni) (keptLines x)
  unfold update_imports
  cases sb with
  | none =>
    cases dir with
    | none => rfl
    | some d =>
      have hdb : isBlankS d = false := useClient_nonblank (hdir d rfl)
      have hhead : specialHead x = [d] := by
        unfold specialHead
        rw [h]
        rfl
      have hrecon : reconLines x ni =
          dropTrailingBlanks (d :: (ext ++ keptLines x)) := by
        unfold reconLines
        rw [hext, hhead]
        simp [List.append_assoc]
      rw [hrecon, dropTrailingBlanks_cons _ hdb]
      exact hasPre_joinLines d _
  | some s =>
    have hsb : isBlankS s = false := shebang_nonblank (hsheb s rfl)
    cases dir with
    | none =>
      have hhead : specialHead x = [s] := by
        unfold specialHead
        rw [h]
        rfl
      have hrecon : reconLines x ni =
          dropTrailingBlanks (s :: (ext ++ keptLines x)) := by
        unfold reconLines
        rw [hext, hhead]
        simp [List.append_assoc]
      rw [hrecon, dropTrailingBlanks_cons _ hsb]
      exact hasPre_joinLines s _
    | some d =>
      have hdb : isBlankS d = false := useClient_nonblank (hdir d rfl)
      have hhead : specialHead x = [s, d] := by
        unfold specialHead
        rw [h]
        rfl
      have hrecon : reconLines x ni =
          dropTrailingBlanks (s :: d :: (ext ++ keptLines x)) := by
        unfold reconLines
        rw [hext, hhead]
        simp [List.append_assoc]
      rw [hrecon]
      rw [dropTrailingBlanks_cons _ hsb, dropTrailingBlanks_cons _ hdb]
      rw [joinLines_cons s _ (by simp)]
      rw [String.data_append, String.data_append]
      rw [show ("\n" : String).data = ['\n'] from rfl, List.append_assoc]
      show hasPre (s.data ++ ('\n' :: d.data))
        (s.data ++ (['\n'] ++
          (joinLines (d :: dropTrailingBlanks (ext ++ keptLines x))).data)) = true
      rw [hasPre_append_left]
      show (('\n' = '\n' : Bool) &&
        hasPre d.data
          (joinLines (d :: dropTrailingBlanks (ext ++ keptLines x))).data) = true
      rw [hasPre_joinLines d _]
      simp

/-- C9 amended: the regenerated block consists of named imports only; the
module order used by the generator is the plain string sort of the module
names, a permutation of the merged map keys in ascending lexicographic
order with no bucketed precedence, and within one module the emitted
symbols are the sorted symbol set; and every emitted line has a
named-import shape — a one-line or opening "import \x7b" line, an indented
symbol line, or a closing "\x7d from" line — so no side-effect, namespace
or default import line is ever generated. -/
theorem c9_amended (m : SMap) :
    List.Sorted strLeR (sortStrings (m.map (fun p => p.1))) ∧
    (sortStrings (m.map (fun p => p.1))).Perm (m.map (fun p => p.1)) ∧
    (∀ src : String, List.Sorted strLeR (sortStrings (getD m src))) ∧
    (∀ line ∈ generated_import_lines m,
      hasPre "import \x7b".data line.data = true ∨
      hasPre "  ".data line.data = true ∨
      hasPre "\x7d from".data line.data = true) := by
  refine ⟨List.sorted_insertionSort strLeR _, List.perm_insertionSort strLeR _,
    fun _ => List.sorted_insertionSort strLeR _, ?_⟩
  intro line hline
  rw [mem_generated] at hline
  obtain ⟨src, _, hmem⟩ := hline
  simp only [genFor] at hmem
  by_cases hempty : (sortStrings (getD m src)).isEmpty = true
  · rw [if_pos hempty] at hmem
    cases hmem
  · rw [if_neg hempty] at hmem
    by_cases hlen : (sortStrings (getD m src)).length ≤ 3
    · rw [if_pos hlen] at hmem
      rcases List.mem_singleton.mp hmem with rfl
      exact Or.inl (hasPre_mkSingle _ _)
    · rw [if_neg hlen] at hmem
      rcases List.mem_append.mp hmem with hmem | hmem
      · rcases List.mem_cons.mp hmem with rfl | hmem
        · exact Or.inl (hasPre_refl _)
        · obtain ⟨c, hc | hc⟩ := multiBody_shape _ _ hmem
          · rw [hc]
            exact Or.inr (Or.inl (hasPre_body c).2)
          · rw [hc]
            exact Or.inr (Or.inl (hasPre_body c).1)
      · rcases List.mem_singleton.mp hmem with rfl
        exact Or.inr (Or.inr (hasPre_close _))

/-- C5 amended witness: a plain code line with no usages, no imports and no
special lines rewrites to itself. -/
theorem c5_amended_witness :
    (group_components_by_source LUCIDE_ICONS (find_used_components "foo();") = [] ∧
     parse_existing_imports "foo();" = ([], []) ∧
     scanSpecials (splitLines "foo();") = (none, none, []) ∧
     isBlankS (lastD (splitLines "foo();")) = false) ∧
    rewrite "foo();" = "foo();" :=
  ⟨⟨by decide, by decide, by decide, by decide⟩,
   c5_amended "foo();" (by decide) (by decide) (Or.inl (by decide)) (by decide)⟩

/-- C8 amended witness: a file with shebang, directive and code keeps both
special lines first, in order. -/
theorem c8_amended_witness :
    scanSpecials (splitLines c8wInput) =
      (some "#!/usr/bin/env node", some "\x27use client\x27;", [0, 1]) ∧
    hasPre (headPre (some "#!/usr/bin/env node") (some "\x27use client\x27;"))
      (update_imports c8wInput []).data = true :=
  ⟨by decide,
   c8_amended c8wInput [] (some "#!/usr/bin/env node") (some "\x27use client\x27;")
     [0, 1] (by decide)⟩
